import Mathlib

set_option synthInstance.maxHeartbeats 400000
set_option maxRecDepth 16000

/-!
Verification of the awesoMD reveal.js markdown plugin core
(`src/plugin/awesoMD/plugin.js`).

The JavaScript source is shallowly embedded below.  Text is represented as
`List Char` (JS strings); the handful of fixed regular expressions of the
source (`^#{1,6}\s+`, `::(\w+):([^::\n]*)`, `^>+\s*\[!`, the yaml fence
pattern, ...) are translated into explicit executable scanners over
`List Char` that implement exactly the matching semantics of those concrete
patterns.  External collaborators of the plugin (the `js-yaml` loader, the
`marked` renderer, the Mustache/XHR template filler, and the dynamically
user-configurable separator regexes) are not part of the repository; they
are passed as explicit function parameters, and witnesses instantiate them
with concrete stubs.
-/

namespace AwesoMD

/-- Character set of the JavaScript `\s` class: space, tab, line
terminators, vertical tab, form feed, and the Unicode space separators. -/
def jsWhitespace (c : Char) : Bool :=
  let n := c.toNat
  n = 32 || n = 9 || n = 10 || n = 13 || n = 11 || n = 12 ||
  n = 0xa0 || n = 0x1680 || (0x2000 ≤ n && n ≤ 0x200a) ||
  n = 0x2028 || n = 0x2029 || n = 0x202f || n = 0x205f || n = 0x3000 || n = 0xfeff

/-- Character set of the JavaScript `\w` class: ASCII letters, digits and
the underscore. -/
def jsWordChar (c : Char) : Bool :=
  let n := c.toNat
  (97 ≤ n && n ≤ 122) || (65 ≤ n && n ≤ 90) || (48 ≤ n && n ≤ 57) || n = 95

/-- JavaScript `String.prototype.trim`: strip whitespace from both ends. -/
def jsTrim (l : List Char) : List Char :=
  ((l.dropWhile jsWhitespace).reverse.dropWhile jsWhitespace).reverse

/-- Splitting on the literal newline character, as in `text.split('\n')`. -/
def splitNl : List Char → List (List Char)
  | [] => [[]]
  | c :: rest =>
    if c = '\n' then [] :: splitNl rest
    else
      match splitNl rest with
      | [] => [[c]]
      | l :: ls => (c :: l) :: ls

/-- Joining with newlines, as in `lines.join('\n')`. -/
def joinNl : List (List Char) → List Char
  | [] => []
  | [l] => l
  | l :: m :: ms => l ++ '\n' :: joinNl (m :: ms)

theorem splitNl_ne_nil (l : List Char) : splitNl l ≠ [] := by
  induction l with
  | nil => simp [splitNl]
  | cons c rest ih =>
    simp only [splitNl]
    split
    · simp
    · cases h : splitNl rest with
      | nil => simp
      | cons a as => simp

/-- Pieces produced by `splitNl` never contain a newline. -/
theorem splitNl_no_newline (l : List Char) :
    ∀ p ∈ splitNl l, '\n' ∉ p := by
  induction l with
  | nil => intro p hp; simp [splitNl] at hp; simp [hp]
  | cons c rest ih =>
    intro p hp
    simp only [splitNl] at hp
    by_cases hc : c = '\n'
    · simp [hc] at hp
      rcases hp with h | h
      · simp [h]
      · exact ih p h
    · simp [hc] at hp
      cases h : splitNl rest with
      | nil => exact absurd h (splitNl_ne_nil rest)
      | cons a as =>
        rw [h] at hp
        simp at hp
        rcases hp with h1 | h1
        · subst h1
          intro hmem
          rcases List.mem_cons.mp hmem with h2 | h2
          · exact hc h2.symm
          · exact ih a (h ▸ List.mem_cons_self a as) h2
        · exact ih p (h ▸ List.mem_cons_of_mem a h1)

/-- Splitting the concatenation of newline-free pieces recovers the pieces. -/
theorem splitNl_joinNl (ls : List (List Char)) (hne : ls ≠ [])
    (h : ∀ p ∈ ls, '\n' ∉ p) : splitNl (joinNl ls) = ls := by
  induction ls with
  | nil => exact absurd rfl hne
  | cons l ls ih =>
    cases ls with
    | nil =>
      simp only [joinNl]
      have hl : '\n' ∉ l := h l (List.mem_cons_self l [])
      clear ih hne h
      induction l with
      | nil => simp [splitNl]
      | cons c cs ihc =>
        have hc : c ≠ '\n' := fun hc => hl (hc ▸ List.mem_cons_self c cs)
        have hcs : '\n' ∉ cs := fun hm => hl (List.mem_cons_of_mem c hm)
        simp only [splitNl, if_neg hc, ihc hcs]
    | cons m ms =>
      have hl : '\n' ∉ l := h l (List.mem_cons_self l _)
      have hrest : ∀ p ∈ m :: ms, '\n' ∉ p := fun p hp => h p (List.mem_cons_of_mem l hp)
      have ihr := ih (by simp) hrest
      show splitNl (l ++ '\n' :: joinNl (m :: ms)) = l :: m :: ms
      clear ih hne h
      induction l with
      | nil =>
        simp only [List.nil_append, splitNl, ihr]
        simp
      | cons c cs ihc =>
        have hc : c ≠ '\n' := fun hc => hl (hc ▸ List.mem_cons_self c cs)
        have hcs : '\n' ∉ cs := fun hm => hl (List.mem_cons_of_mem c hm)
        have hrec := ihc hcs
        simp only [List.cons_append, splitNl, if_neg hc]
        rw [show cs.append ('\n' :: joinNl (m :: ms)) = cs ++ '\n' :: joinNl (m :: ms) from rfl,
          hrec]

/-! ### createNestedBlockquote (plugin.js lines 779-782) -/

/-- Structural core of `createNestedBlockquote`, counting the remaining
positive wraps. -/
def nestBlockquote : Nat → String → String
  | 0, content => content
  | n + 1, content => "<blockquote>" ++ nestBlockquote n content ++ "</blockquote>"

/-- Embedding of `createNestedBlockquote(count, content)`:
`if (count <= 0) return content;`
`return '<blockquote>' + createNestedBlockquote(count - 1, content) + '</blockquote>'`.
The recursion (which terminates for every integer because the count only
decreases while positive) is realized as structural recursion on
`count.toNat`; the C10 theorem proves the source's two defining equations. -/
def createNestedBlockquote (count : Int) (content : String) : String :=
  nestBlockquote count.toNat content

/-- Concatenation of `n` copies of a string. -/
def repeatStr : Nat → String → String
  | 0, _ => ""
  | n + 1, s => s ++ repeatStr n s

theorem repeatStr_succ_right (n : Nat) (s : String) :
    repeatStr (n + 1) s = repeatStr n s ++ s := by
  induction n with
  | zero => simp [repeatStr]
  | succ k ih =>
    show s ++ repeatStr (k + 1) s = (s ++ repeatStr k s) ++ s
    rw [ih, String.append_assoc]

theorem nestBlockquote_closed (k : Nat) (content : String) :
    nestBlockquote k content =
      repeatStr k "<blockquote>" ++ content ++ repeatStr k "</blockquote>" := by
  induction k with
  | zero => simp [nestBlockquote, repeatStr]
  | succ k ih =>
    rw [nestBlockquote, ih, repeatStr_succ_right k "</blockquote>"]
    show "<blockquote>" ++ (repeatStr k "<blockquote>" ++ content ++ repeatStr k "</blockquote>")
        ++ "</blockquote>" =
      ("<blockquote>" ++ repeatStr k "<blockquote>") ++ content ++
        (repeatStr k "</blockquote>" ++ "</blockquote>")
    simp [String.append_assoc]

/-- C10: `createNestedBlockquote` is total and structurally exact: it returns
the content unchanged for every integer `count ≤ 0`, satisfies the wrapping
recurrence for `count > 0`, and in general wraps the content in exactly
`count` nested blockquote open/close pairs. -/
theorem C10_createNestedBlockquote_exact :
    (∀ (n : Int) (content : String), n ≤ 0 → createNestedBlockquote n content = content) ∧
    (∀ (n : Int) (content : String), 0 < n →
      createNestedBlockquote n content =
        "<blockquote>" ++ createNestedBlockquote (n - 1) content ++ "</blockquote>") ∧
    (∀ (n : Int) (content : String),
      createNestedBlockquote n content =
        repeatStr n.toNat "<blockquote>" ++ content ++ repeatStr n.toNat "</blockquote>") := by
  refine ⟨?_, ?_, fun n content => nestBlockquote_closed n.toNat content⟩
  · intro n content h
    unfold createNestedBlockquote
    rw [Int.toNat_eq_zero.mpr h]
    rfl
  · intro n content h
    unfold createNestedBlockquote
    have : n.toNat = (n - 1).toNat + 1 := by omega
    rw [this]
    rfl

/-- Concrete instance of `C10_createNestedBlockquote_exact`. -/
theorem C10_createNestedBlockquote_exact_witness :
    ((-1 : Int) ≤ 0 ∧ createNestedBlockquote (-1) "msg" = "msg") ∧
    ((0 : Int) < 2 ∧ createNestedBlockquote 2 "msg" =
      "<blockquote>" ++ createNestedBlockquote 1 "msg" ++ "</blockquote>") :=
  ⟨⟨by decide, C10_createNestedBlockquote_exact.1 (-1) "msg" (by decide)⟩,
   ⟨by decide, C10_createNestedBlockquote_exact.2.1 2 "msg" (by decide)⟩⟩

/-! ### addSlideSeparator (plugin.js lines 568-588) -/

/-- Matching of a line against the heading pattern of the source
(`line.match(/^#{1,6}\s+/)` truthiness): one to six leading hash marks
followed by a whitespace character. -/
def isHeadingLine (l : List Char) : Bool :=
  let hashes := l.takeWhile (· = '#')
  (1 ≤ hashes.length && hashes.length ≤ 6) &&
    (match l.drop hashes.length with
     | c :: _ => jsWhitespace c
     | [] => false)

/-- Line-level body of `addSlideSeparator`: the `lines.forEach` loop.
`seen` is `firstHeadingProcessingDone`; `prev` carries `lines[index - 1]`
(`none` at index 0, matching `lines[-1] || ''` via `Option.getD []`). -/
def addSepLines (sep : List Char) : List (List Char) → Bool → Option (List Char) →
    List (List Char)
  | [], _, _ => []
  | l :: ls, seen, prev =>
    if isHeadingLine l then
      if seen then
        if prev.getD [] = sep then l :: addSepLines sep ls true (some l)
        else sep :: l :: addSepLines sep ls true (some l)
      else l :: addSepLines sep ls true (some l)
    else l :: addSepLines sep ls seen (some l)

/-- Embedding of `addSlideSeparator(markdown, options)`; `sep` is
`options.slideSeparator` (set to `'---'` by `slidify`). -/
def addSlideSeparator (markdown : List Char) (sep : List Char) : List Char :=
  joinNl (addSepLines sep (splitNl markdown) false none)

/-- The precondition of the claim, relative to the loop state: every heading
line after the first is immediately preceded by the separator line. -/
def separated (sep : List Char) : List (List Char) → Bool → Option (List Char) → Prop
  | [], _, _ => True
  | l :: ls, seen, prev =>
    (isHeadingLine l = true → seen = true → prev.getD [] = sep) ∧
      separated sep ls (seen || isHeadingLine l) (some l)

theorem addSepLines_of_separated (sep : List Char) :
    ∀ (xs : List (List Char)) (seen : Bool) (prev : Option (List Char)),
      separated sep xs seen prev → addSepLines sep xs seen prev = xs := by
  intro xs
  induction xs with
  | nil => intro seen prev _; rfl
  | cons l ls ih =>
    intro seen prev h
    obtain ⟨h1, h2⟩ := h
    by_cases hl : isHeadingLine l
    · simp only [hl, Bool.or_true] at h2
      cases seen with
      | true =>
        rw [addSepLines, if_pos hl, if_pos rfl, if_pos (h1 hl rfl), ih true (some l) h2]
      | false =>
        rw [addSepLines, if_pos hl]
        simp only [Bool.false_eq_true, if_false]
        rw [ih true (some l) h2]
    · simp only [Bool.not_eq_true] at hl
      simp only [hl, Bool.or_false] at h2
      rw [addSepLines, if_neg (by simp [hl]), ih seen (some l) h2]

theorem separated_addSepLines (sep : List Char) (hsep : isHeadingLine sep = false) :
    ∀ (xs : List (List Char)) (seen : Bool) (prev : Option (List Char)),
      separated sep (addSepLines sep xs seen prev) seen prev := by
  intro xs
  induction xs with
  | nil => intro seen prev; exact trivial
  | cons l ls ih =>
    intro seen prev
    by_cases hl : isHeadingLine l
    · cases seen with
      | true =>
        by_cases hp : prev.getD [] = sep
        · rw [addSepLines, if_pos hl, if_pos rfl, if_pos hp]
          exact ⟨fun _ _ => hp, by simpa [hl] using ih true (some l)⟩
        · rw [addSepLines, if_pos hl, if_pos rfl, if_neg hp]
          refine ⟨fun hs _ => absurd hs (by simp [hsep]), ?_⟩
          simp only [hsep, Bool.or_false]
          exact ⟨fun _ _ => rfl, by simpa [hl] using ih true (some l)⟩
      | false =>
        rw [addSepLines, if_pos hl]
        simp only [Bool.false_eq_true, if_false]
        exact ⟨fun _ h => absurd h (by simp), by simpa [hl] using ih true (some l)⟩
    · simp only [Bool.not_eq_true] at hl
      rw [addSepLines, if_neg (by simp [hl])]
      exact ⟨fun h _ => absurd h (by simp [hl]), by simpa [hl] using ih seen (some l)⟩

theorem joinNl_splitNl (l : List Char) : joinNl (splitNl l) = l := by
  induction l with
  | nil => rfl
  | cons c rest ih =>
    by_cases hc : c = '\n'
    · subst hc
      simp only [splitNl, if_pos rfl]
      cases h : splitNl rest with
      | nil => exact absurd h (splitNl_ne_nil rest)
      | cons a as =>
        rw [h] at ih
        show joinNl ([] :: a :: as) = '\n' :: rest
        rw [joinNl]
        simpa using ih
    · simp only [splitNl, if_neg hc]
      cases h : splitNl rest with
      | nil => exact absurd h (splitNl_ne_nil rest)
      | cons a as =>
        rw [h] at ih
        cases as with
        | nil =>
          show joinNl [c :: a] = c :: rest
          rw [joinNl]
          rw [joinNl] at ih
          exact congrArg (c :: ·) ih
        | cons b bs =>
          show joinNl ((c :: a) :: b :: bs) = c :: rest
          rw [joinNl] at ih ⊢
          simpa using ih

theorem addSepLines_mem (sep : List Char) :
    ∀ (xs : List (List Char)) (seen : Bool) (prev : Option (List Char)),
      ∀ p ∈ addSepLines sep xs seen prev, p = sep ∨ p ∈ xs := by
  intro xs
  induction xs with
  | nil => intro seen prev p hp; simp [addSepLines] at hp
  | cons l ls ih =>
    intro seen prev p hp
    rw [addSepLines] at hp
    split at hp
    · split at hp
      · split at hp
        · rcases List.mem_cons.mp hp with h | h
          · exact Or.inr (h ▸ List.mem_cons_self l ls)
          · rcases ih true (some l) p h with h2 | h2
            · exact Or.inl h2
            · exact Or.inr (List.mem_cons_of_mem l h2)
        · rcases List.mem_cons.mp hp with h | h
          · exact Or.inl h
          · rcases List.mem_cons.mp h with h3 | h3
            · exact Or.inr (h3 ▸ List.mem_cons_self l ls)
            · rcases ih true (some l) p h3 with h2 | h2
              · exact Or.inl h2
              · exact Or.inr (List.mem_cons_of_mem l h2)
      · rcases List.mem_cons.mp hp with h | h
        · exact Or.inr (h ▸ List.mem_cons_self l ls)
        · rcases ih true (some l) p h with h2 | h2
          · exact Or.inl h2
          · exact Or.inr (List.mem_cons_of_mem l h2)
    · rcases List.mem_cons.mp hp with h | h
      · exact Or.inr (h ▸ List.mem_cons_self l ls)
      · rcases ih seen (some l) p h with h2 | h2
        · exact Or.inl h2
        · exact Or.inr (List.mem_cons_of_mem l h2)

theorem addSepLines_ne_nil (sep : List Char) (l : List Char) (ls : List (List Char))
    (seen : Bool) (prev : Option (List Char)) :
    addSepLines sep (l :: ls) seen prev ≠ [] := by
  rw [addSepLines]
  split
  · split
    · split <;> simp
    · simp
  · simp

/-- C7 counterexample: idempotence fails for the input `"# a\n# b"` when the
configured separator `"# c"` is itself a heading line: the second run inserts
a second copy of the separator before the separator line inserted by the
first run. -/
theorem C7_addSlideSeparator_not_idempotent :
    addSlideSeparator (addSlideSeparator ("# a\n# b").data ("# c").data) ("# c").data ≠
      addSlideSeparator ("# a\n# b").data ("# c").data := by
  decide

/-- C7 (amended): `addSlideSeparator` makes no insertion when every heading
after the first is already immediately preceded by the separator line, and it
is idempotent whenever the configured separator is a newline-free line that is
not itself a heading line (as is the `'---'` separator installed by
`slidify`); unrestricted idempotence fails when the separator is a heading. -/
theorem C7_addSlideSeparator_idempotent :
    (∀ (markdown sep : List Char),
      separated sep (splitNl markdown) false none →
      addSlideSeparator markdown sep = markdown) ∧
    (∀ (markdown sep : List Char), '\n' ∉ sep → isHeadingLine sep = false →
      addSlideSeparator (addSlideSeparator markdown sep) sep =
        addSlideSeparator markdown sep) := by
  constructor
  · intro markdown sep h
    unfold addSlideSeparator
    rw [addSepLines_of_separated sep _ _ _ h, joinNl_splitNl]
  · intro markdown sep hnl hsep
    unfold addSlideSeparator
    have hlines : splitNl (joinNl (addSepLines sep (splitNl markdown) false none)) =
        addSepLines sep (splitNl markdown) false none := by
      apply splitNl_joinNl
      · cases h : splitNl markdown with
        | nil => exact absurd h (splitNl_ne_nil markdown)
        | cons a as => exact addSepLines_ne_nil sep a as false none
      · intro p hp
        rcases addSepLines_mem sep (splitNl markdown) false none p hp with h | h
        · exact h ▸ hnl
        · exact splitNl_no_newline markdown p h
    rw [hlines, addSepLines_of_separated sep _ _ _
      (separated_addSepLines sep hsep (splitNl markdown) false none)]

/-- Concrete instance of `C7_addSlideSeparator_idempotent`: the `'---'`
separator used by `slidify` is idempotent on a document with two headings. -/
theorem C7_addSlideSeparator_idempotent_witness :
    addSlideSeparator (addSlideSeparator ("# a\ntext\n# b").data ("---").data) ("---").data =
      addSlideSeparator ("# a\ntext\n# b").data ("---").data :=
  C7_addSlideSeparator_idempotent.2 ("# a\ntext\n# b").data ("---").data
    (by decide) (by decide)

/-! ### splitSlideContentIntoBlocks (plugin.js lines 722-774) -/

/-- Fueled core of `splitCrNl`; the fuel (initially the input length, which
always suffices because every step consumes at least one character) makes the
recursion structural so that it evaluates in the kernel. -/
def splitCrNlAux : Nat → List Char → List (List Char)
  | _, [] => [[]]
  | 0, l => [l]
  | fuel + 1, c :: rest =>
    if c = '\n' then [] :: splitCrNlAux fuel rest
    else if c = '\r' && rest.head? == some '\n' then [] :: splitCrNlAux fuel rest.tail
    else
      match splitCrNlAux fuel rest with
      | [] => [[c]]
      | l :: ls => (c :: l) :: ls

/-- Splitting on the pattern `\r?\n`, as in `content.split(/\r?\n/)`: a
newline splits, a carriage return immediately followed by a newline splits
(both consumed), any other character belongs to the current piece. -/
def splitCrNl (l : List Char) : List (List Char) :=
  splitCrNlAux l.length l

/-- Test of the alert-start pattern `/^>+\s*\[!/` against a (trimmed) line. -/
def isAlertStartT (t : List Char) : Bool :=
  let gts := t.takeWhile (· = '>')
  1 ≤ gts.length && ['[', '!'].isPrefixOf ((t.drop gts.length).dropWhile jsWhitespace)

/-- The `blocks.push(currentBlock.join('\n'))` flush, guarded by
`currentBlock.length > 0`. -/
def flushBlock (cur : List (List Char)) : List (List Char) :=
  if cur.isEmpty then [] else [joinNl cur]

/-- The `lines.forEach` state machine of `splitSlideContentIntoBlocks`:
`cur` is `currentBlock`, `inAlert` is `inAlertBlock`. -/
def splitBlocksAux : List (List Char) → List (List Char) → Bool → List (List Char)
  | [], cur, _ => flushBlock cur
  | line :: rest, cur, inAlert =>
    let t := jsTrim line
    if t.isEmpty then
      flushBlock cur ++ splitBlocksAux rest [] (if cur.isEmpty then inAlert else false)
    else if isAlertStartT t then
      flushBlock cur ++ splitBlocksAux rest [line] true
    else if t.head? = some '>' then
      splitBlocksAux rest (cur ++ [line]) true
    else if inAlert then
      splitBlocksAux rest (cur ++ [line]) inAlert
    else
      flushBlock cur ++ line ::
        splitBlocksAux rest [] (if cur.isEmpty then inAlert else false)

/-- Embedding of `splitSlideContentIntoBlocks(content)`. -/
def splitSlideContentIntoBlocks (content : List Char) : List (List Char) :=
  splitBlocksAux (splitCrNl content) [] false

theorem splitCrNlAux_ne_nil (fuel : Nat) (l : List Char) : splitCrNlAux fuel l ≠ [] := by
  match fuel, l with
  | fuel, [] => simp [splitCrNlAux]
  | 0, c :: rest => simp [splitCrNlAux]
  | fuel + 1, c :: rest =>
    rw [splitCrNlAux]
    split
    · simp
    · split
      · simp
      · split <;> simp

theorem splitCrNl_ne_nil (l : List Char) : splitCrNl l ≠ [] :=
  splitCrNlAux_ne_nil l.length l

theorem splitCrNlAux_no_newline (fuel : Nat) :
    ∀ (l : List Char), l.length ≤ fuel → ∀ p ∈ splitCrNlAux fuel l, '\n' ∉ p := by
  induction fuel with
  | zero =>
    intro l hl p hp
    have : l = [] := List.eq_nil_of_length_eq_zero (Nat.le_zero.mp hl)
    subst this
    simp [splitCrNlAux] at hp
    simp [hp]
  | succ n ih =>
    intro l hl p hp
    match l with
    | [] =>
      simp [splitCrNlAux] at hp
      simp [hp]
    | c :: rest =>
      rw [splitCrNlAux] at hp
      have hrest : rest.length ≤ n := by simpa using hl
      by_cases h1 : c = '\n'
      · rw [if_pos h1] at hp
        rcases List.mem_cons.mp hp with h | h
        · simp [h]
        · exact ih rest hrest p h
      · rw [if_neg h1] at hp
        by_cases h2 : (c = '\r' && rest.head? == some '\n') = true
        · rw [if_pos h2] at hp
          rcases List.mem_cons.mp hp with h | h
          · simp [h]
          · exact ih rest.tail (le_trans (by simp [List.length_tail]) hrest) p h
        · rw [if_neg h2] at hp
          revert hp
          cases hs : splitCrNlAux n rest with
          | nil => exact absurd hs (splitCrNlAux_ne_nil n rest)
          | cons a as =>
            intro hp
            rcases List.mem_cons.mp hp with h | h
            · subst h
              intro hmem
              rcases List.mem_cons.mp hmem with h3 | h3
              · exact h1 h3.symm
              · exact ih rest hrest a (hs ▸ List.mem_cons_self a as) h3
            · exact ih rest hrest p (hs ▸ List.mem_cons_of_mem a h)

theorem splitCrNl_no_newline (l : List Char) : ∀ p ∈ splitCrNl l, '\n' ∉ p :=
  splitCrNlAux_no_newline l.length l le_rfl

theorem splitNl_singleton (l : List Char) (h : '\n' ∉ l) : splitNl l = [l] := by
  have := splitNl_joinNl [l] (by simp) (by simpa using h)
  simpa [joinNl] using this

theorem splitBlocksAux_lines (lines : List (List Char)) :
    ∀ (cur : List (List Char)) (inAlert : Bool),
      (∀ p ∈ cur, '\n' ∉ p) → (∀ p ∈ lines, '\n' ∉ p) →
      ((splitBlocksAux lines cur inAlert).map splitNl).flatten =
        cur ++ lines.filter (fun l => !(jsTrim l).isEmpty) := by
  induction lines with
  | nil =>
    intro cur inAlert hcur _
    rw [splitBlocksAux]
    unfold flushBlock
    by_cases h : cur.isEmpty
    · simp_all [List.isEmpty_iff]
    · rw [if_neg h]
      simp only [List.map_cons, List.map_nil, List.flatten_cons, List.flatten_nil]
      rw [splitNl_joinNl cur (by simpa [List.isEmpty_iff] using h) hcur]
      simp
  | cons line rest ih =>
    intro cur inAlert hcur hlines
    have hline : '\n' ∉ line := hlines line (List.mem_cons_self _ _)
    have hrest : ∀ p ∈ rest, '\n' ∉ p := fun p hp => hlines p (List.mem_cons_of_mem _ hp)
    have hflush : ((flushBlock cur).map splitNl).flatten = cur := by
      unfold flushBlock
      by_cases h : cur.isEmpty
      · simp_all [List.isEmpty_iff]
      · rw [if_neg h]
        simp only [List.map_cons, List.map_nil, List.flatten_cons, List.flatten_nil]
        rw [splitNl_joinNl cur (by simpa [List.isEmpty_iff] using h) hcur]
        simp
    rw [splitBlocksAux]
    by_cases h1 : (jsTrim line).isEmpty
    · rw [if_pos h1]
      rw [List.map_append, List.flatten_append, hflush,
        ih [] _ (by simp) hrest]
      simp [h1]
    · rw [if_neg h1]
      by_cases h2 : isAlertStartT (jsTrim line)
      · rw [if_pos h2]
        rw [List.map_append, List.flatten_append, hflush,
          ih [line] true (by simpa using hline) hrest]
        simp [h1]
      · rw [if_neg h2]
        by_cases h3 : (jsTrim line).head? = some '>'
        · rw [if_pos h3]
          rw [ih (cur ++ [line]) true
            (by intro p hp
                rcases List.mem_append.mp hp with h | h
                · exact hcur p h
                · simp at h; subst h; exact hline) hrest]
          simp [h1]
        · rw [if_neg h3]
          by_cases h4 : inAlert
          · rw [if_pos h4]
            rw [ih (cur ++ [line]) inAlert
              (by intro p hp
                  rcases List.mem_append.mp hp with h | h
                  · exact hcur p h
                  · simp at h; subst h; exact hline) hrest]
            simp [h1]
          · rw [if_neg h4]
            rw [List.map_append, List.flatten_append, hflush, List.map_cons,
              List.flatten_cons, ih [] _ (by simp) hrest]
            rw [splitNl_singleton line hline]
            simp [h1]

/-- C9: `splitSlideContentIntoBlocks` loses no content line: concatenating
the lines of the returned blocks, in order, yields exactly the input lines
whose trimmed form is non-empty, in input order; lines that trim to empty
appear in no block. -/
theorem C9_splitSlideContentIntoBlocks_preserves_lines (content : List Char) :
    ((splitSlideContentIntoBlocks content).map splitNl).flatten =
      (splitCrNl content).filter (fun l => !(jsTrim l).isEmpty) := by
  unfold splitSlideContentIntoBlocks
  rw [splitBlocksAux_lines (splitCrNl content) [] false (by simp)
    (splitCrNl_no_newline content)]
  simp

/-! ### Metadata objects and slidify options

JavaScript objects holding metadata are modeled as association lists with
JS property-assignment semantics (`setKey`) and spread-merge (`mergeMeta`).
Values keep the YAML-level typing (string / boolean / number / null). -/

inductive MetaVal where
  | str (s : List Char)
  | boolV (b : Bool)
  | intV (n : Int)
  | nullV
deriving DecidableEq

abbrev Metadata := List (List Char × MetaVal)

/-- JS object property assignment `obj[k] = v`: overwrite in place if the key
exists, append otherwise. -/
def setKey (m : Metadata) (k : List Char) (v : MetaVal) : Metadata :=
  if m.any (fun p => p.1 == k) then
    m.map (fun p => if p.1 = k then (k, v) else p)
  else m ++ [(k, v)]

/-- JS object spread `{...a, ...b}`: the entries of `b`, in order, assigned
over a copy of `a`. -/
def mergeMeta (a b : Metadata) : Metadata :=
  b.foldl (fun acc p => setKey acc p.1 p.2) a

/-- JS property read `obj[k]` (first entry with the key; keys are unique in
objects built by `setKey`). -/
def lookupMeta (m : Metadata) (k : List Char) : Option MetaVal :=
  match m with
  | [] => none
  | p :: ps => if p.1 = k then some p.2 else lookupMeta ps k

/-- JS string coercion with falsy-to-empty, as in `metadata.slide || ''`. -/
def jsOrEmptyStr (v : Option MetaVal) : List Char :=
  match v with
  | some (.str s) => s
  | some (.boolV b) => if b then ('t' :: 'r' :: 'u' :: 'e' :: []) else []
  | some (.intV n) => if n = 0 then [] else (toString n).data
  | some .nullV => []
  | none => []

/-- The derived attribute `'class=' + (options.metadata.slide || '')`. -/
def classAttr (m : Metadata) : List Char :=
  ("class=").data ++ jsOrEmptyStr (lookupMeta m ("slide").data)

/-- The options record threaded through `slidify` (see `getSlidifyOptions`);
absent JS properties are `none`. -/
structure SlideOptions where
  separator : Option (List Char) := none
  verticalSeparator : Option (List Char) := none
  notesSeparator : Option (List Char) := none
  separateByHeading : Bool := false
  hasDataSeparator : Bool := false
  attributes : Option (List Char) := none
  metadata : Option Metadata := none
  slideSeparator : Option (List Char) := none
deriving DecidableEq

deriving instance DecidableEq for Except

/-! ### extractInlineMetadata (plugin.js lines 625-644) -/

/-- Test whether a list begins with a `::\w+: *\w` occurrence, the core of
the pattern `/^#+\s.*::\w+: *\w+.*$/m`. -/
def hasTagAt (l : List Char) : Bool :=
  match l with
  | ':' :: ':' :: rest =>
    let k := rest.takeWhile jsWordChar
    if k.isEmpty then false
    else
      match rest.drop k.length with
      | ':' :: rest2 =>
        (match rest2.dropWhile (· = ' ') with
         | d :: _ => jsWordChar d
         | [] => false)
      | _ => false
  | _ => false

/-- Search for a `::\w+: *\w` occurrence anywhere in a line. -/
def lineHasTagMarker : List Char → Bool
  | [] => false
  | c :: rest => hasTagAt (c :: rest) || lineHasTagMarker rest

/-- Matching of one line against `/^#+\s.*::\w+: *\w+.*$/`: one or more
leading hashes, a whitespace character, and a tag marker in the remainder. -/
def isMetadataHeadingLine (l : List Char) : Bool :=
  let hashes := l.takeWhile (· = '#')
  !hashes.isEmpty &&
    (match l.drop hashes.length with
     | c :: rest => jsWhitespace c && lineHasTagMarker rest
     | [] => false)

/-- Scan of the line list for the first match of
`/^#+\s.*::\w+: *\w+.*$/m`.  The single `\s` after the maximal hash run can
be an in-line whitespace character (the match is one line,
`isMetadataHeadingLine`) or the newline ending a hash-only line: then the
`.*::\w+: *\w+.*$` part matches the entire next line and the matched text
spans both lines. -/
def findMetaHeadingText : List (List Char) → Option (List Char)
  | [] => none
  | l :: rest =>
    if isMetadataHeadingLine l then some l
    else if !l.isEmpty && l.all (· = '#') then
      match rest with
      | [] => none
      | l2 :: _ =>
        if lineHasTagMarker l2 then some (l ++ '\n' :: l2)
        else findMetaHeadingText rest
    else findMetaHeadingText rest

/-- Embedding of `markdown.match(headingWithMetadataRegex)` with the `m`
flag: the text of the first match of the heading-with-metadata pattern
(possibly spanning a hash-only line and the next line, see
`findMetaHeadingText`). -/
def findMetaHeadingLine (markdown : List Char) : Option (List Char) :=
  findMetaHeadingText (splitNl markdown)

/-- Fueled core of `scanTags` (the fuel, initially the input length, always
suffices because every step consumes at least one character). -/
def scanTagsAux : Nat → List Char → List (List Char × List Char)
  | _, [] => []
  | 0, _ => []
  | fuel + 1, c :: rest =>
    if c = ':' && rest.head? == some ':' then
      let rest2 := rest.tail
      let k := rest2.takeWhile jsWordChar
      let after := rest2.drop k.length
      if !k.isEmpty && after.head? == some ':' then
        let rest3 := after.tail
        let v := rest3.takeWhile (fun d => !(d = ':' || d = '\n'))
        (k, v) :: scanTagsAux fuel (rest3.drop v.length)
      else scanTagsAux fuel rest
    else scanTagsAux fuel rest

/-- Global scan of `/::(\w+):([^::\n]*)/g` over a line: every `::key:value`
occurrence in order, advancing one character on failed match attempts. -/
def scanTags (l : List Char) : List (List Char × List Char) :=
  scanTagsAux l.length l

/-- Length of the span matched by
`new RegExp('::\\b' + key + '\\b:\\s*' + value)` at the head of `l`, for
values free of regex metacharacters (keys are `\w+`, so both `\b` boundaries
always hold; `\s*` takes the maximal whitespace run, after which a trimmed
non-empty value must follow literally). -/
def tagSpanAt (k v l : List Char) : Option Nat :=
  if (':' :: ':' :: (k ++ [':'])).isPrefixOf l then
    let after := l.drop (k.length + 3)
    let ws := after.takeWhile jsWhitespace
    if v.isEmpty then some (k.length + 3 + ws.length)
    else if v.isPrefixOf (after.drop ws.length) then
      some (k.length + 3 + ws.length + v.length)
    else none
  else none

/-- Embedding of `markdown.replace(metadataPattern, '')`: delete the first occurrence of
the rebuilt per-key pattern. -/
def removeTag (k v : List Char) : List Char → List Char
  | [] => []
  | c :: rest =>
    match tagSpanAt k v (c :: rest) with
    | some n => (c :: rest).drop n
    | none => c :: removeTag k v rest

/-- The inline tags of the fragment: the matches of `metadataRegex` on the
first heading-with-metadata line (empty when no such line exists). -/
def tagsOf (markdown : List Char) : List (List Char × List Char) :=
  match findMetaHeadingLine markdown with
  | some line => scanTags line
  | none => []

/-- Characters with a syntactic role in a JS regular expression.  A trimmed
tag value containing one of them makes the dynamically built
`new RegExp('::\\b' + key + '\\b:\\s*' + value)` either throw a
`SyntaxError` (e.g. an unbalanced `(`) or compile to a pattern whose
matching is not the literal value text. -/
def regexSyntaxChar (c : Char) : Bool :=
  c = '\\' || c = '^' || c = '$' || c = '.' || c = '*' || c = '+' || c = '?' ||
    c = '(' || c = ')' || c = '[' || c = ']' || c = '{' || c = '}' || c = '|'

/-- Message of the exception propagating out of the `new RegExp(...)` call
(the concrete `SyntaxError` text is engine-specific; a fixed marker stands
for it). -/
def regexErrorMessage : List Char := ("Invalid regular expression").data

/-- The `metadataMatches.forEach` body of `extractInlineMetadata`: each tag
is first assigned (trimmed) into `inlineMetadata`, then
`new RegExp('::\\b' + key + '\\b:\\s*' + value)` is built and its first
match deleted from the content.  The key is `\w+`, so both `\b` boundaries
always hold, and for a value free of regex syntax characters the pattern
matches exactly the literal tag text with `\s*` taking the maximal
whitespace run (`removeTag`).  At the first value containing a regex syntax
character the loop stops with `.error`: there the constructor throws a
`SyntaxError` or the pattern is not the literal value — only inputs whose
offending value genuinely throws (an unbalanced `(`) are used in theorems
below. -/
def extractTagsLoop : List (List Char × List Char) → List Char → Metadata →
    Except (List Char) (List Char × Metadata)
  | [], markdown, acc => .ok (markdown, acc)
  | (key, value) :: rest, markdown, acc =>
    let k := jsTrim key
    let v := jsTrim value
    let acc := setKey acc k (.str v)
    if v.all (fun c => !regexSyntaxChar c) then
      extractTagsLoop rest (removeTag k v markdown) acc
    else .error regexErrorMessage

/-- Embedding of `extractInlineMetadata(markdown, options)`: the tags of the
heading match are folded by `extractTagsLoop`; on success the collected
object is spread over `options.metadata` and the class attribute is
recomputed, while a thrown `SyntaxError` propagates before any merge
(`options` is left untouched). -/
def extractInlineMetadata (markdown : List Char) (options : SlideOptions) :
    Except (List Char) (List Char × SlideOptions) :=
  match extractTagsLoop (tagsOf markdown) markdown [] with
  | .error e => .error e
  | .ok step =>
    let metadata := mergeMeta (options.metadata.getD []) step.2
    .ok (step.1,
      { options with
         metadata := some metadata
         attributes := some (classAttr metadata) })

/-- Value of the last tag carrying (trimmed) key `k`: the claim's
"later occurrence wins" reading of a tag list. -/
def lastTag (k : List Char) : List (List Char × List Char) → Option (List Char)
  | [] => none
  | p :: ts =>
    match lastTag k ts with
    | some v => some v
    | none => if jsTrim p.1 = k then some p.2 else none

/-- Value of the last entry of an association list carrying key `k`
("later assignment wins" reading). -/
def lastEntryV (k : List Char) : Metadata → Option MetaVal
  | [] => none
  | p :: ms =>
    match lastEntryV k ms with
    | some v => some v
    | none => if p.1 = k then some p.2 else none

theorem boolNotTrue {b : Bool} (h : ¬ b = true) : b = false := by
  cases b with
  | false => rfl
  | true => exact absurd rfl h

theorem lookupMeta_eq_none_of_any_false (m : Metadata) (k : List Char)
    (h : m.any (fun p => p.1 == k) = false) : lookupMeta m k = none := by
  induction m with
  | nil => rfl
  | cons p ps ih =>
    simp only [List.any_cons, Bool.or_eq_false_iff, beq_eq_false_iff_ne] at h
    rw [lookupMeta, if_neg h.1]
    exact ih (by simp [h.2])

theorem lookupMeta_map_replace (m : Metadata) (k : List Char) (v : MetaVal)
    (k' : List Char) :
    lookupMeta (m.map (fun p => if p.1 = k then (k, v) else p)) k' =
      if k' = k then (if m.any (fun p => p.1 == k) then some v else none)
      else lookupMeta m k' := by
  induction m with
  | nil => by_cases h : k' = k <;> simp [lookupMeta, h]
  | cons p ps ih =>
    by_cases hp : p.1 = k
    · by_cases hk : k' = k
      · simp [List.map_cons, List.any_cons, lookupMeta, hp, hk]
      · have hkk : ¬ k = k' := fun h => hk h.symm
        have hpk : ¬ p.1 = k' := fun h => hkk (hp.symm.trans h)
        simp [List.map_cons, List.any_cons, lookupMeta, hp, hk, hkk, hpk, ih]
    · by_cases hk : k' = k
      · subst hk
        have hb : (p.1 == k') = false := beq_eq_false_iff_ne.mpr hp
        simp [List.map_cons, List.any_cons, lookupMeta, hp, ih]
        rw [hb]
        rw [Bool.false_or]
      · by_cases hpk : p.1 = k'
        · simp [List.map_cons, List.any_cons, lookupMeta, hp, hk, hpk, ih]
        · simp [List.map_cons, List.any_cons, lookupMeta, hp, hk, hpk, ih]

theorem lookupMeta_append_single (m : Metadata) (k : List Char) (v : MetaVal)
    (k' : List Char) :
    lookupMeta (m ++ [(k, v)]) k' =
      match lookupMeta m k' with
      | some w => some w
      | none => if k = k' then some v else none := by
  induction m with
  | nil => simp [lookupMeta]
  | cons p ps ih =>
    by_cases hp : p.1 = k'
    · simp [List.cons_append, lookupMeta, hp]
    · simp [List.cons_append, lookupMeta, hp, ih]

theorem lookupMeta_setKey (m : Metadata) (k : List Char) (v : MetaVal)
    (k' : List Char) :
    lookupMeta (setKey m k v) k' = if k' = k then some v else lookupMeta m k' := by
  unfold setKey
  by_cases hany : m.any (fun p => p.1 == k)
  · rw [if_pos hany, lookupMeta_map_replace]
    by_cases hk : k' = k
    · simp [hk, hany]
    · rw [if_neg hk, if_neg hk]
  · rw [if_neg hany, lookupMeta_append_single]
    by_cases hk : k' = k
    · subst hk
      rw [lookupMeta_eq_none_of_any_false m k' (boolNotTrue hany)]
    · have hkk : ¬ k = k' := fun h => hk h.symm
      cases h : lookupMeta m k' with
      | some w => simp [if_neg hk]
      | none => simp [if_neg hk, hkk]

theorem lastEntryV_map_replace (m : Metadata) (k : List Char) (v : MetaVal)
    (k' : List Char) :
    lastEntryV k' (m.map (fun p => if p.1 = k then (k, v) else p)) =
      if k' = k then (if m.any (fun p => p.1 == k) then some v else none)
      else lastEntryV k' m := by
  induction m with
  | nil => by_cases h : k' = k <;> simp [lastEntryV, h]
  | cons p ps ih =>
    simp only [List.map_cons, List.any_cons, lastEntryV, ih]
    by_cases hk : k' = k
    · by_cases hany : ps.any (fun p => p.1 == k)
      · simp [hk, hany]
      · by_cases hp : p.1 = k
        · simp [hk, hany, hp]
        · have hpk : ¬ p.1 = k' := fun h => hp (h.trans hk)
          simp [hk, hany, hp, hpk]
    · simp only [if_neg hk]
      cases h : lastEntryV k' ps with
      | some w => rfl
      | none =>
        by_cases hp : p.1 = k
        · have hkk : ¬ k = k' := fun h => hk h.symm
          have hpk : ¬ p.1 = k' := fun h => hkk (hp.symm.trans h)
          simp [hp, hpk, hkk]
        · simp [hp]

theorem lastEntryV_append_single (m : Metadata) (k : List Char) (v : MetaVal)
    (k' : List Char) :
    lastEntryV k' (m ++ [(k, v)]) =
      if k = k' then some v else lastEntryV k' m := by
  induction m with
  | nil => simp [lastEntryV]
  | cons p ps ih =>
    rw [List.cons_append]
    show (match lastEntryV k' (ps ++ [(k, v)]) with
          | some w => some w
          | none => if p.1 = k' then some p.2 else none) =
        if k = k' then some v else lastEntryV k' (p :: ps)
    rw [ih]
    by_cases h : k = k'
    · simp [h]
    · simp only [if_neg h]
      rfl

theorem lastEntryV_setKey (m : Metadata) (k : List Char) (v : MetaVal)
    (k' : List Char) :
    lastEntryV k' (setKey m k v) = if k' = k then some v else lastEntryV k' m := by
  unfold setKey
  by_cases hany : m.any (fun p => p.1 == k)
  · rw [if_pos hany, lastEntryV_map_replace]
    by_cases hk : k' = k
    · simp [hk, hany]
    · rw [if_neg hk, if_neg hk]
  · rw [if_neg hany, lastEntryV_append_single]
    by_cases hk : k' = k
    · simp [hk]
    · rw [if_neg (fun h => hk h.symm), if_neg hk]

theorem lookupMeta_mergeMeta (b a : Metadata) (k : List Char) :
    lookupMeta (mergeMeta a b) k =
      match lastEntryV k b with
      | some v => some v
      | none => lookupMeta a k := by
  induction b generalizing a with
  | nil => rfl
  | cons p bs ih =>
    show lookupMeta (mergeMeta (setKey a p.1 p.2) bs) k = _
    rw [ih]
    simp only [lastEntryV]
    cases h : lastEntryV k bs with
    | some v => rfl
    | none =>
      rw [lookupMeta_setKey]
      by_cases hp : p.1 = k
      · simp [hp]
      · have hkp : ¬ k = p.1 := fun h => hp h.symm
        simp [hp, hkp]

theorem foldl_pair_snd {α β γ : Type} (f : γ → α → α) (g : β → γ → β) :
    ∀ (ts : List γ) (a : α) (b : β),
      (ts.foldl (fun acc p => (f p acc.1, g acc.2 p)) (a, b)).2 = ts.foldl g b := by
  intro ts
  induction ts with
  | nil => intro a b; rfl
  | cons p ts ih => intro a b; exact ih (f p a) (g b p)

theorem lastEntryV_foldSet (ts : List (List Char × List Char)) (o : Metadata)
    (k : List Char) :
    lastEntryV k (ts.foldl (fun o p => setKey o (jsTrim p.1) (.str (jsTrim p.2))) o) =
      match lastTag k ts with
      | some v => some (.str (jsTrim v))
      | none => lastEntryV k o := by
  induction ts generalizing o with
  | nil => rfl
  | cons p ts ih =>
    show lastEntryV k (ts.foldl _ (setKey o (jsTrim p.1) (.str (jsTrim p.2)))) = _
    rw [ih]
    simp only [lastTag]
    cases h : lastTag k ts with
    | some v => rfl
    | none =>
      rw [lastEntryV_setKey]
      by_cases hp : jsTrim p.1 = k
      · simp [hp]
      · have hkp : ¬ k = jsTrim p.1 := fun h => hp h.symm
        rw [if_neg hkp, if_neg hp]

/-- When every trimmed tag value is free of regex syntax characters, the tag
loop succeeds and its metadata component is the plain fold of `setKey`. -/
theorem extractTagsLoop_safe (ts : List (List Char × List Char))
    (md : List Char) (acc : Metadata)
    (h : ∀ p ∈ ts, (jsTrim p.2).all (fun c => !regexSyntaxChar c) = true) :
    extractTagsLoop ts md acc = .ok
      (ts.foldl (fun m p => removeTag (jsTrim p.1) (jsTrim p.2) m) md,
       ts.foldl (fun o p => setKey o (jsTrim p.1) (.str (jsTrim p.2))) acc) := by
  induction ts generalizing md acc with
  | nil => rfl
  | cons p ts ih =>
    show extractTagsLoop (p :: ts) md acc = _
    rw [extractTagsLoop]
    rw [if_pos (h p (List.mem_cons_self p ts))]
    rw [ih (removeTag (jsTrim p.1) (jsTrim p.2) md) _
      (fun q hq => h q (List.mem_cons_of_mem p hq))]
    rfl

/-- C3 counterexample: on `# A ::slide:cover ::toc:(x` the heading pattern
matches (via `::slide:cover`) and `metadataRegex` extracts the tag
`toc = (x`, whose interpolation makes
`new RegExp('::\x5cbtoc\x5cb:\x5cs*(x')` throw a `SyntaxError` (unterminated
group): the call aborts before the metadata merge, so the inline `slide`
tag never overrides anything — refuting the claim's universal override. -/
theorem C3_regexp_throw_counterexample :
    extractInlineMetadata ("# A ::slide:cover ::toc:(x").data
      { metadata := some [(("slide").data, .str ("title-content").data)] } =
      .error regexErrorMessage ∧
    (lastTag ("slide").data
      (tagsOf ("# A ::slide:cover ::toc:(x").data)).map jsTrim =
      some (("cover").data) ∧
    (jsTrim ("(x").data).all (fun c => !regexSyntaxChar c) = false := by
  decide

/-- C3 (amended): whenever every inline tag value on the heading match is
free of regex syntax characters — so that no dynamically built
`new RegExp` throws — `extractInlineMetadata` succeeds and applies strict
override precedence: looking up any key in the produced metadata yields the
value of the last inline tag with that key (kept as a trimmed string),
falling back to the document-level metadata only for untagged keys.  In
particular, document metadata `slide: title-content` with tags
`::slide:cover ::toc:false` yields `slide = "cover"`, `toc = "false"`,
and the duplicate tags `::toc:false ::toc:true` yield `toc = "true"`.
For a fragment with a regex-syntax value the call instead throws before
merging (see the counterexample). -/
theorem C3_extractInlineMetadata_precedence :
    (∀ (markdown : List Char) (options : SlideOptions) (k : List Char)
       (result : List Char × SlideOptions),
      (∀ p ∈ tagsOf markdown,
        (jsTrim p.2).all (fun c => !regexSyntaxChar c) = true) →
      extractInlineMetadata markdown options = .ok result →
      lookupMeta ((result.2.metadata).getD []) k =
        match lastTag k (tagsOf markdown) with
        | some v => some (MetaVal.str (jsTrim v))
        | none => lookupMeta (options.metadata.getD []) k) ∧
    ((extractInlineMetadata ("# Cover Slide ::slide:cover ::toc:false").data
        { metadata := some [(("slide").data, .str ("title-content").data)] }).map
        (fun r => (lookupMeta ((r.2.metadata).getD []) ("slide").data,
                   lookupMeta ((r.2.metadata).getD []) ("toc").data)) =
      .ok (some (.str ("cover").data), some (.str ("false").data))) ∧
    ((extractInlineMetadata
        ("# Cover Slide ::slide:cover ::toc:false ::toc:true").data
        { metadata := some [(("slide").data, .str ("title-content").data)] }).map
        (fun r => lookupMeta ((r.2.metadata).getD []) ("toc").data) =
      .ok (some (.str ("true").data))) := by
  refine ⟨?_, by decide, by decide⟩
  intro markdown options k result hsafe hok
  unfold extractInlineMetadata at hok
  rw [extractTagsLoop_safe (tagsOf markdown) markdown [] hsafe] at hok
  simp only [Except.ok.injEq] at hok
  rw [← hok]
  simp only [Option.getD_some]
  rw [lookupMeta_mergeMeta, lastEntryV_foldSet]
  cases h : lastTag k (tagsOf markdown) with
  | some v => rfl
  | none => rfl

/-- Concrete instance of `C3_extractInlineMetadata_precedence`: the
duplicate `toc` tags resolve to the later value `true`. -/
theorem C3_extractInlineMetadata_precedence_witness :
    extractInlineMetadata ("# A ::toc:false ::toc:true").data {} =
      .ok (("# A  ").data,
        { metadata := some [(("toc").data, .str ("true").data)],
          attributes := some (("class=").data) }) ∧
    lookupMeta (([(("toc").data, MetaVal.str ("true").data)] : Metadata))
      ("toc").data = some (.str ("true").data) :=
  ⟨by decide,
   by
    have h := (C3_extractInlineMetadata_precedence).1
      ("# A ::toc:false ::toc:true").data {} ("toc").data
      (("# A  ").data,
        { metadata := some [(("toc").data, .str ("true").data)],
          attributes := some (("class=").data) })
      (by decide) (by decide)
    simpa using h⟩

/-! ### extractYAMLMetadata (plugin.js lines 598-618) -/

/-- Index of the first occurrence of `pat` as a contiguous sublist. -/
def findSubIdx (pat : List Char) : List Char → Option Nat
  | [] => if pat.isEmpty then some 0 else none
  | c :: rest =>
    if pat.isPrefixOf (c :: rest) then some 0
    else (findSubIdx pat rest).map (· + 1)

/-- One attempt of `yamlRegex` (` ```(yaml|yml)\n([\s\S]*?)```(\n[\s\S]*)? `)
anchored at the head of `l`: the fence header, the shortest body followed by
three backticks, and the optional newline-led trailing group.  Returns
`(language, body, group3)`. -/
def yamlFenceAt (l : List Char) : Option (List Char × List Char × Option (List Char)) :=
  let tryLang := fun (lang : List Char) =>
    if (('`' :: '`' :: '`' :: lang) ++ ['\n']).isPrefixOf l then
      let afterHeader := l.drop (lang.length + 4)
      match findSubIdx ['`', '`', '`'] afterHeader with
      | some i =>
        let body := afterHeader.take i
        let afterFence := afterHeader.drop (i + 3)
        some (lang, body,
          if afterFence.head? = some '\n' then some afterFence else none)
      | none => none
    else none
  (tryLang ("yaml").data).orElse (fun _ => tryLang ("yml").data)

/-- Embedding of `yamlRegex.exec(markdown)` from index 0: the first position at which the
fence pattern matches. -/
def yamlFenceExec : List Char → Option (List Char × List Char × Option (List Char))
  | [] => none
  | c :: rest => (yamlFenceAt (c :: rest)).orElse (fun _ => yamlFenceExec rest)

/-- External collaborator type modelling `yaml.load` of the `js-yaml`
dependency: `.error msg` is a thrown exception carrying `error.message`,
`.ok none` an `undefined` parse result, `.ok (some m)` a parsed mapping. -/
abbrev YamlLoad := List Char → Except (List Char) (Option Metadata)

/-- Message of the `new Error('The inline metadata is not valid.')` thrown
when the fenced body parses to `undefined`. -/
def yamlErrorMessage : List Char := ("The inline metadata is not valid.").data

/-- Embedding of `extractYAMLMetadata(markdown, options)`. -/
def extractYAMLMetadata (yload : YamlLoad) (markdown : List Char)
    (options : SlideOptions) : List Char × SlideOptions :=
  match yamlFenceExec markdown with
  | some (_, body, g3) =>
    if body.isEmpty then (markdown, options)
    else
      let md := g3.getD []
      match yload body with
      | .error e => (e, options)
      | .ok none => (yamlErrorMessage, options)
      | .ok (some metadataYAML) =>
        let metadata := mergeMeta (options.metadata.getD []) metadataYAML
        (md, { options with
                metadata := some metadata
                attributes := some (classAttr metadata) })
  | none => (markdown, options)

/-- C4 counterexample: a fragment containing the fenced yaml block
` ```yaml ` / ` ``` ` with an *empty* body (whose parse yields no structured
result: `yaml.load('')` is `undefined`, modelled by the loader stub) is
returned unchanged — its visible text is not replaced by the error
message, contradicting the claim as stated. -/
theorem C4_extractYAMLMetadata_empty_body_counterexample :
    (extractYAMLMetadata (fun _ => .ok none) ("```yaml\n```\nrest").data {}).1 =
      ("```yaml\n```\nrest").data ∧
    ("```yaml\n```\nrest").data ≠ yamlErrorMessage := by
  decide

/-- C4 (amended): for every fragment whose first fenced yaml/yml block has a
*non-empty* body, if the loader throws, the fragment's visible text becomes
the exception message; if the parse yields no structured result, it becomes
the fixed invalid-metadata message.  In both cases the options — in
particular `options.metadata` — are returned unchanged, and no exception
escapes the call. -/
theorem C4_extractYAMLMetadata_error_fail_soft :
    ∀ (yload : YamlLoad) (markdown : List Char) (options : SlideOptions)
      (lang body : List Char) (g3 : Option (List Char)),
      yamlFenceExec markdown = some (lang, body, g3) →
      ¬ body.isEmpty →
      (∀ e, yload body = .error e →
        extractYAMLMetadata yload markdown options = (e, options)) ∧
      (yload body = .ok none →
        extractYAMLMetadata yload markdown options = (yamlErrorMessage, options)) := by
  intro yload markdown options lang body g3 hfence hbody
  constructor
  · intro e herr
    unfold extractYAMLMetadata
    rw [hfence]
    simp [boolNotTrue hbody, herr]
  · intro hundef
    unfold extractYAMLMetadata
    rw [hfence]
    simp [boolNotTrue hbody, hundef]

/-- Concrete instance of `C4_extractYAMLMetadata_error_fail_soft`: a loader
that throws on the body `foo: [` replaces the fragment text with the
exception message and leaves the options untouched. -/
theorem C4_extractYAMLMetadata_error_fail_soft_witness :
    extractYAMLMetadata (fun _ => .error ("bad yaml").data)
        ("```yaml\nfoo: [\n```\ntail").data {} =
      (("bad yaml").data, ({} : SlideOptions)) :=
  (C4_extractYAMLMetadata_error_fail_soft (fun _ => .error ("bad yaml").data)
      ("```yaml\nfoo: [\n```\ntail").data {} ("yaml").data ("foo: [\n").data
      (some ("\ntail").data) (by decide) (by decide)).1 ("bad yaml").data rfl

/-! ### renderMarkdownAlerts (plugin.js lines 779-890)

The per-block classification and rendering of the alert parser.  The DOM
calls of the source (`createElement`, `classList.add`, `insertAdjacentHTML`,
`innerHTML`) build a `<div>` whose class list and inserted HTML strings are
modelled structurally by `BlockOut`; the purely cosmetic `styleBlockquotes`
pass (inline style attributes on nested quotes) is not part of the model. -/

/-- Count of leading `>` characters (`line.match(/^(>+)/)`; a count of zero
corresponds to a `null` match). -/
def leadingGt (l : List Char) : Nat :=
  (l.takeWhile (· = '>')).length

/-- Embedding of `message.replace(/^>+\s*/, '')`: strip the leading run of `>` and the
following whitespace run, when at least one `>` leads. -/
def stripGtWs (l : List Char) : List Char :=
  if l.head? = some '>' then (l.dropWhile (· = '>')).dropWhile jsWhitespace
  else l

/-- Match of one line against `alertTypeRegex` (`^\r*>*\s*(\[!(\w+)\])`),
returning the bracketed type token. -/
def alertTypeMatchLine (l : List Char) : Option (List Char) :=
  let afterCr := l.dropWhile (· = '\r')
  let afterGt := afterCr.dropWhile (· = '>')
  let afterWs := afterGt.dropWhile jsWhitespace
  match afterWs with
  | '[' :: '!' :: rest =>
    let w := rest.takeWhile jsWordChar
    if w.isEmpty then none
    else if (rest.drop w.length).head? = some ']' then some w
    else none
  | _ => none

/-- Match of one line against the first-line part of `alertBlockRegex`
(`^\r*>\s*(\[!(\w+)\]).*`): exactly one `>` after optional carriage
returns, then whitespace and a bracketed word token. -/
def lineAlertFirst (l : List Char) : Bool :=
  let afterCr := l.dropWhile (· = '\r')
  afterCr.head? = some '>' &&
    (let afterWs := afterCr.tail.dropWhile jsWhitespace
     afterWs.head? = some '[' && afterWs.tail.head? = some '!' &&
       (let r2 := afterWs.tail.tail
        let w := r2.takeWhile jsWordChar
        !w.isEmpty && (r2.drop w.length).head? = some ']'))

/-- Test whether a line is `\r*>` followed by whitespace only: from such a
line the `\s*` of `alertBlockRegex` can cross the newline and reach a
bracketed token on a later line. -/
def lineGtWsOnly (l : List Char) : Bool :=
  match l.dropWhile (· = '\r') with
  | '>' :: rest => rest.all jsWhitespace
  | _ => false

/-- Test whether a line begins, after optional whitespace, with a bracketed
word token `[!w+]` (the continuation of a cross-newline `\s*`). -/
def startsWsTag (l : List Char) : Bool :=
  match l.dropWhile jsWhitespace with
  | '[' :: '!' :: r =>
    let w := r.takeWhile jsWordChar
    !w.isEmpty && (r.drop w.length).head? = some ']'
  | _ => false

/-- Continuation of the cross-newline `\s*` of `alertBlockRegex`: skipping
whitespace-only lines, the next line must open (after whitespace) with the
bracketed token and must itself be followed by a newline (the `.*\n` after
the token), i.e. not be the last line. -/
def tagReachable : List (List Char) → Bool
  | [] => false
  | [_] => false
  | l :: l2 :: rest =>
    if startsWsTag l then true
    else if l.all jsWhitespace then tagReachable (l2 :: rest)
    else false

/-- Scan of the line list for a match of the first part of
`alertBlockRegex` (`^\r*>\s*\[!(\w+)\].*\n`): on some non-last line either
the whole first-line pattern matches in-line (`lineAlertFirst`), or the
line is `\r*>` plus whitespace and the greedy `\s*` crosses the newline to
a token line (`lineGtWsOnly`/`tagReachable`); the trailing
`(\s*\s*>.*\n?)*` group can match empty. -/
def blockAlertMatchAux : List (List Char) → Bool
  | [] => false
  | [_] => false
  | l :: l2 :: rest =>
    lineAlertFirst l || (lineGtWsOnly l && tagReachable (l2 :: rest)) ||
      blockAlertMatchAux (l2 :: rest)

/-- Truthiness of `block.match(alertBlockRegex)`. -/
def blockAlertMatch (block : List Char) : Bool :=
  blockAlertMatchAux (splitNl block)

/-- Truthiness of `block.match(alertTypeRegex)` (`m` flag): some line matches. -/
def blockAlertTypeMatch (block : List Char) : Bool :=
  (splitNl block).any (fun l => (alertTypeMatchLine l).isSome)

/-- Truthiness of `block.match(alertMessageRegex)` (`/\r*>\s*[\w].*/`,
unanchored): somewhere a `>` is followed by optional whitespace (which may
span newlines) and a word character. -/
def blockAlertMessageMatch : List Char → Bool
  | [] => false
  | c :: rest =>
    (c = '>' &&
      (match (rest.dropWhile jsWhitespace).head? with
       | some d => jsWordChar d
       | none => false)) ||
    blockAlertMessageMatch rest

/-- The recognized alert types (own keys of the `alertIcons` object
literal). -/
def alertTypeNames : List (List Char) :=
  [("note").data, ("tip").data, ("caution").data, ("important").data, ("warning").data]

/-- Property names inherited by every plain object literal from
`Object.prototype` (including the Annex B accessors); the JS `in` operator
reports these as present on `alertIcons` too. -/
def objectProtoKeys : List (List Char) :=
  [("constructor").data, ("hasOwnProperty").data, ("isPrototypeOf").data,
   ("propertyIsEnumerable").data, ("toLocaleString").data, ("toString").data,
   ("valueOf").data, ("__proto__").data, ("__defineGetter__").data,
   ("__defineSetter__").data, ("__lookupGetter__").data,
   ("__lookupSetter__").data]

/-- Embedding of `type in alertIcons`: the `in` operator walks the prototype
chain, so both the five own keys and the `Object.prototype` property names
answer true. -/
def inAlertIcons (k : List Char) : Bool :=
  alertTypeNames.contains k || objectProtoKeys.contains k

/-- Embedding of `'<p>' + groupedContent.join('<br>') + '</p>'`. -/
def pTagJoinBr (grouped : List String) : String :=
  "<p>" ++ String.intercalate "<br>" grouped ++ "</p>"

/-- The `for (const message of alertMessageArray)` loop of
`renderBlockquote`: `grouped` is `groupedContent`, `currentCount` is
`currentCount`, `acc` the HTML inserted so far. -/
def renderBlockquoteLoop (count : Int) :
    List (List Char) → List String → Int → String → String
  | [], grouped, currentCount, acc =>
    if grouped.isEmpty then acc
    else acc ++ createNestedBlockquote currentCount (pTagJoinBr grouped)
  | msg :: rest, grouped, currentCount, acc =>
    let text := String.mk (jsTrim (stripGtWs msg))
    if count ≠ currentCount ∧ ¬ grouped.isEmpty then
      renderBlockquoteLoop count rest [text] count
        (acc ++ createNestedBlockquote currentCount (pTagJoinBr grouped))
    else
      renderBlockquoteLoop count rest (grouped ++ [text]) count acc

/-- Embedding of `renderBlockquote(alertMessageArray)`; `none` models the
`TypeError` thrown when the first line has no leading `>`
(`...match(/^(>+)/)[1]` on a `null` match). -/
def renderBlockquote (arr : List (List Char)) : Option String :=
  match arr.head? with
  | none => none
  | some first =>
    let count := leadingGt first
    if count = 0 then none
    else some (renderBlockquoteLoop (Int.ofNat count) arr [] 0 "")

/-- Structural result of rendering one block in `renderMarkdownAlerts`:
a typed alert `<div class="alert TYPE">` with icon/label header and its
inserted blockquote strings, an untyped `<div class="alert">` from the
alert-block branch, a `<div class="alert">` filled by `renderBlockquote`,
or a plain `<p>` paragraph. -/
inductive BlockOut where
  | alertDivTyped (type : List Char) (quotes : List String)
  | alertDivPlain (quotes : List String)
  | quoteDiv (inner : String)
  | paragraph (text : List Char)
deriving DecidableEq

/-- The quote-insertion loop shared by both alert-div paths: each message
becomes a nested blockquote whose depth is recomputed each iteration from
`alertContentArray[0]` (`match === null ? 1 : match[1].length`). -/
def alertQuotes (bodyArr : List (List Char)) : List String :=
  bodyArr.map (fun msg =>
    let c := match bodyArr.head? with
      | some h => if leadingGt h = 0 then 1 else leadingGt h
      | none => 1
    createNestedBlockquote (Int.ofNat c) (String.mk (jsTrim (stripGtWs msg))))

/-- The body of the `for (const block of blocks)` loop of
`renderMarkdownAlerts`; `none` models a thrown `TypeError`.  In the
alert-block branch, the source computes `type`, `count` and then slices the
line array when `type in alertIcons && count === 1`; the two outcomes are
written out per branch here. -/
def renderBlock (block : List Char) : Option BlockOut :=
  if blockAlertMatch block then
    match (splitNl block).head? with
    | none => none
    | some line0 =>
      match alertTypeMatchLine line0 with
      | none => none
      | some token =>
        if leadingGt line0 = 0 then none
        else if inAlertIcons (token.map Char.toLower) && leadingGt line0 = 1 then
          some (.alertDivTyped (token.map Char.toLower) (alertQuotes (splitNl block).tail))
        else
          some (.alertDivPlain (alertQuotes (splitNl block)))
  else if blockAlertTypeMatch block || blockAlertMessageMatch block then
    (renderBlockquote (splitNl block)).map .quoteDiv
  else
    some (.paragraph block)

/-- Result of `renderMarkdownAlerts`: either the input passed through (no
line matches `alertRegex`) or the rendered block list. -/
inductive AlertsOut where
  | passthrough (content : List Char)
  | rendered (blocks : List BlockOut)
deriving DecidableEq

/-- Truthiness of `content.match(alertRegex)` (`/^\r*>.*$/gm`): some line
begins with a `>` after optional carriage returns. -/
def alertRegexTest (content : List Char) : Bool :=
  (splitNl content).any (fun l => (l.dropWhile (· = '\r')).head? = some '>')

/-- Embedding of `renderMarkdownAlerts(content)`: split into blocks and
render each; `none` models a thrown `TypeError`. -/
def renderMarkdownAlerts (content : List Char) : Option AlertsOut :=
  if alertRegexTest content then
    ((splitSlideContentIntoBlocks content).mapM renderBlock).map .rendered
  else some (.passthrough content)

/-! ### Lemmas about alert-line matching and trimming -/

/-- Removal of a trailing run of `q`-characters. -/
def dropTrail (q : Char → Bool) (l : List Char) : List Char :=
  (l.reverse.dropWhile q).reverse

theorem jsTrim_eq_dropTrail (l : List Char) :
    jsTrim l = dropTrail jsWhitespace (l.dropWhile jsWhitespace) := rfl

theorem dropWhile_eq_of_sub (p q : Char → Bool) (l : List Char)
    (himp : ∀ x, p x = true → q x = true)
    (hstop : ∀ c, (l.dropWhile p).head? = some c → q c = false) :
    l.dropWhile q = l.dropWhile p := by
  induction l with
  | nil => rfl
  | cons c rest ih =>
    by_cases hc : p c = true
    · rw [List.dropWhile_cons_of_pos hc, List.dropWhile_cons_of_pos (himp c hc)]
      apply ih
      intro d hd
      apply hstop
      rwa [List.dropWhile_cons_of_pos hc]
    · have hq : q c = false := hstop c (by simp [List.dropWhile_cons, boolNotTrue hc])
      simp [List.dropWhile_cons, boolNotTrue hc, hq]

theorem dropWhile_ne_nil_of_witness (q : Char → Bool) (l : List Char)
    (h : ∃ x ∈ l, q x = false) : l.dropWhile q ≠ [] := by
  intro hcon
  obtain ⟨x, hx, hqx⟩ := h
  have := List.dropWhile_eq_nil_iff.mp hcon x hx
  rw [hqx] at this
  exact Bool.false_ne_true this

theorem dropTrail_cons (q : Char → Bool) (c : Char) (xs : List Char)
    (h : ∃ x ∈ xs, q x = false) : dropTrail q (c :: xs) = c :: dropTrail q xs := by
  unfold dropTrail
  rw [List.reverse_cons, List.dropWhile_append]
  have hne : xs.reverse.dropWhile q ≠ [] := by
    apply dropWhile_ne_nil_of_witness
    obtain ⟨x, hx, hqx⟩ := h
    exact ⟨x, List.mem_reverse.mpr hx, hqx⟩
  rw [if_neg (by simpa [List.isEmpty_iff] using hne)]
  simp

theorem dropTrail_append (q : Char → Bool) (a b : List Char)
    (h : ∃ x ∈ b, q x = false) : dropTrail q (a ++ b) = a ++ dropTrail q b := by
  induction a with
  | nil => simp
  | cons c a' ih =>
    rw [List.cons_append, dropTrail_cons q c (a' ++ b)
      (by obtain ⟨x, hx, hqx⟩ := h; exact ⟨x, List.mem_append_right a' hx, hqx⟩), ih]
    rfl

theorem word_not_ws (c : Char) (h : jsWordChar c = true) : jsWhitespace c = false := by
  simp only [jsWordChar, Bool.or_eq_true, Bool.and_eq_true, decide_eq_true_eq] at h
  simp only [jsWhitespace, Bool.or_eq_false_iff, Bool.and_eq_false_iff,
    decide_eq_false_iff_not]
  omega

/-- A list with a known head is that head consed onto its tail. -/
theorem head_struct (xs : List Char) (c : Char) (h : xs.head? = some c) :
    xs = c :: xs.tail := by
  cases xs with
  | nil => simp at h
  | cons a t => simp at h; rw [h]; rfl

/-- A line matching the first-line alert pattern still matches the
splitter's alert-start pattern after trimming. -/
theorem lineAlertFirst_imp_alertStart (l : List Char)
    (h : lineAlertFirst l = true) : isAlertStartT (jsTrim l) = true := by
  unfold lineAlertFirst at h
  simp only [Bool.and_eq_true, decide_eq_true_eq, Bool.not_eq_true'] at h
  obtain ⟨hgt, ⟨hbr, hbang⟩, hwne, hclose⟩ := h
  set t := (l.dropWhile (· = '\r')).tail with htdef
  set W := t.dropWhile jsWhitespace with hWdef
  set r2 := W.tail.tail with hr2def
  set w := r2.takeWhile jsWordChar with hwdef
  have hA : l.dropWhile (· = '\r') = '>' :: t := head_struct _ _ hgt
  have hW1 : W = '[' :: W.tail := head_struct _ _ hbr
  have hW2 : W.tail = '!' :: r2 := head_struct _ _ hbang
  have hdw : r2.drop w.length = r2.dropWhile jsWordChar := by
    conv_lhs => rw [show r2 = r2.takeWhile jsWordChar ++ r2.dropWhile jsWordChar from
      (List.takeWhile_append_dropWhile jsWordChar r2).symm, ← hwdef]
    exact List.drop_left _ _
  have hD : r2.dropWhile jsWordChar = ']' :: (r2.dropWhile jsWordChar).tail :=
    head_struct _ _ (by rw [← hdw]; exact hclose)
  have ht_decomp : t = t.takeWhile jsWhitespace ++ ('[' :: '!' :: r2) := by
    conv_lhs => rw [show t = t.takeWhile jsWhitespace ++ t.dropWhile jsWhitespace from
      (List.takeWhile_append_dropWhile jsWhitespace t).symm]
    rw [← hWdef, hW1, hW2]
  have hr2mem : ']' ∈ r2 := by
    rw [show r2 = r2.takeWhile jsWordChar ++ r2.dropWhile jsWordChar from
      (List.takeWhile_append_dropWhile jsWordChar r2).symm, hD]
    exact List.mem_append_right _ (List.mem_cons_self _ _)
  have htmem : '[' ∈ t := by
    rw [ht_decomp]
    exact List.mem_append_right _ (List.mem_cons_self _ _)
  have hdropl : l.dropWhile jsWhitespace = '>' :: t := by
    rw [dropWhile_eq_of_sub (· = '\r') jsWhitespace l
      (fun x hx => by simp only [decide_eq_true_eq] at hx; subst hx; decide)
      (fun c hc => by rw [hA] at hc; simp at hc; rw [← hc]; decide), hA]
  have htrim : jsTrim l =
      '>' :: (t.takeWhile jsWhitespace ++ ('[' :: '!' :: dropTrail jsWhitespace r2)) := by
    rw [jsTrim_eq_dropTrail, hdropl,
      dropTrail_cons jsWhitespace '>' t ⟨'[', htmem, by decide⟩]
    congr 1
    conv_lhs => rw [ht_decomp]
    rw [dropTrail_append jsWhitespace _ _ ⟨'[', List.mem_cons_self _ _, by decide⟩,
      dropTrail_cons jsWhitespace '[' _ ⟨'!', List.mem_cons_self _ _, by decide⟩,
      dropTrail_cons jsWhitespace '!' _ ⟨']', hr2mem, by decide⟩]
  rw [htrim]
  unfold isAlertStartT
  have hheadne : ∀ c, (t.takeWhile jsWhitespace ++
      ('[' :: '!' :: dropTrail jsWhitespace r2)).head? = some c → (c = '>') = False := by
    intro c hc
    rcases hT : t.takeWhile jsWhitespace with _ | ⟨d, ds⟩
    · rw [hT] at hc
      simp at hc
      simp [← hc]
    · rw [hT] at hc
      simp at hc
      have hd : jsWhitespace d = true :=
        List.mem_takeWhile_imp (hT ▸ List.mem_cons_self d ds)
      subst hc
      simp only [eq_iff_iff, iff_false]
      intro hgt2
      rw [hgt2] at hd
      simp [jsWhitespace] at hd
  have htake : ('>' :: (t.takeWhile jsWhitespace ++
      ('[' :: '!' :: dropTrail jsWhitespace r2))).takeWhile (· = '>') = ['>'] := by
    rw [List.takeWhile_cons_of_pos (by decide)]
    rcases hT : (t.takeWhile jsWhitespace ++
        ('[' :: '!' :: dropTrail jsWhitespace r2)) with _ | ⟨d, ds⟩
    · rfl
    · rw [List.takeWhile_cons_of_neg]
      simp only [decide_eq_true_eq]
      have := hheadne d (by rw [hT]; rfl)
      simp [this]
  rw [htake]
  simp only [List.length_cons, List.length_nil, List.drop_succ_cons, List.drop_zero]
  have hdropws : (t.takeWhile jsWhitespace ++
      ('[' :: '!' :: dropTrail jsWhitespace r2)).dropWhile jsWhitespace =
      '[' :: '!' :: dropTrail jsWhitespace r2 := by
    rw [List.dropWhile_append]
    have hnil : (t.takeWhile jsWhitespace).dropWhile jsWhitespace = [] :=
      List.dropWhile_eq_nil_iff.mpr (fun x hx => List.mem_takeWhile_imp hx)
    rw [hnil]
    simp only [List.isEmpty_nil, if_true]
    rw [List.dropWhile_cons_of_neg (by decide)]
  rw [hdropws]
  simp [List.isPrefixOf]

theorem lineAlertFirst_false_of_two_gt (l : List Char) (h : 2 ≤ leadingGt l) :
    lineAlertFirst l = false := by
  unfold leadingGt at h
  rcases l with _ | ⟨a, l1⟩
  · simp at h
  · by_cases ha : a = '>'
    · subst ha
      rcases l1 with _ | ⟨b, t⟩
      · simp [List.takeWhile] at h
      · by_cases hb : b = '>'
        · subst hb
          have h1 : jsWhitespace '>' = false := by decide
          simp [lineAlertFirst, List.dropWhile_cons, h1]
        · rw [List.takeWhile_cons_of_pos (by decide),
            List.takeWhile_cons_of_neg (by simpa using hb)] at h
          simp at h
    · rw [List.takeWhile_cons_of_neg (by simpa using ha)] at h
      simp at h

theorem str_empty_append (s : String) : "" ++ s = s := by
  apply String.ext
  simp

theorem renderBlockquoteLoop_run (count : Int) (msgs : List (List Char)) :
    ∀ (grouped : List String) (acc : String), grouped ≠ [] →
      renderBlockquoteLoop count msgs grouped count acc =
        acc ++ createNestedBlockquote count
          (pTagJoinBr (grouped ++ msgs.map (fun m => String.mk (jsTrim (stripGtWs m))))) := by
  induction msgs with
  | nil =>
    intro grouped acc h
    rw [renderBlockquoteLoop, if_neg (by simpa [List.isEmpty_iff] using h)]
    simp
  | cons m ms ih =>
    intro grouped acc h
    rw [renderBlockquoteLoop]
    rw [if_neg (by simp)]
    rw [ih (grouped ++ [String.mk (jsTrim (stripGtWs m))]) acc (by simp)]
    simp

theorem renderBlockquote_const (line0 : List Char) (rest : List (List Char))
    (h : leadingGt line0 ≠ 0) :
    renderBlockquote (line0 :: rest) =
      some (createNestedBlockquote (Int.ofNat (leadingGt line0))
        (pTagJoinBr ((line0 :: rest).map (fun m => String.mk (jsTrim (stripGtWs m)))))) := by
  unfold renderBlockquote
  simp only [List.head?_cons]
  rw [if_neg h]
  congr 1
  rw [renderBlockquoteLoop]
  rw [if_neg (by simp)]
  simp only [List.nil_append]
  rw [renderBlockquoteLoop_run (Int.ofNat (leadingGt line0)) rest
    [String.mk (jsTrim (stripGtWs line0))] "" (by simp)]
  rw [str_empty_append]
  simp

/-- Within every block produced by the splitter, no line after the first has
a trimmed form matching the alert-start pattern (such a line would have
started its own block). -/
theorem splitBlocksAux_tail_no_alertStart (lines : List (List Char)) :
    ∀ (cur : List (List Char)) (inAlert : Bool),
      (∀ p ∈ cur, '\n' ∉ p) → (∀ p ∈ lines, '\n' ∉ p) →
      (∀ l ∈ cur.tail, isAlertStartT (jsTrim l) = false) →
      ∀ b ∈ splitBlocksAux lines cur inAlert,
        ∀ l ∈ (splitNl b).tail, isAlertStartT (jsTrim l) = false := by
  induction lines with
  | nil =>
    intro cur inAlert hcur _ htail b hb l hl
    rw [splitBlocksAux] at hb
    unfold flushBlock at hb
    by_cases h : cur.isEmpty
    · simp [h] at hb
    · rw [if_neg h] at hb
      simp at hb
      subst hb
      rw [splitNl_joinNl cur (by simpa [List.isEmpty_iff] using h) hcur] at hl
      exact htail l hl
  | cons line rest ih =>
    intro cur inAlert hcur hlines htail b hb l hl
    have hline : '\n' ∉ line := hlines line (List.mem_cons_self _ _)
    have hrest : ∀ p ∈ rest, '\n' ∉ p := fun p hp => hlines p (List.mem_cons_of_mem _ hp)
    have hflushmem : b ∈ flushBlock cur → ∀ l2 ∈ (splitNl b).tail,
        isAlertStartT (jsTrim l2) = false := by
      intro hmem l2 hl2
      unfold flushBlock at hmem
      by_cases h : cur.isEmpty
      · simp [h] at hmem
      · rw [if_neg h] at hmem
        simp at hmem
        subst hmem
        rw [splitNl_joinNl cur (by simpa [List.isEmpty_iff] using h) hcur] at hl2
        exact htail l2 hl2
    have hcurline : ∀ (hna : isAlertStartT (jsTrim line) = false),
        ∀ l2 ∈ (cur ++ [line]).tail, isAlertStartT (jsTrim l2) = false := by
      intro hna l2 hl2
      rcases cur with _ | ⟨c0, cs⟩
      · simp at hl2
      · simp only [List.cons_append, List.tail_cons] at hl2
        rcases List.mem_append.mp hl2 with hmem | hmem
        · exact htail l2 hmem
        · simp at hmem
          subst hmem
          exact hna
    rw [splitBlocksAux] at hb
    by_cases h1 : (jsTrim line).isEmpty
    · rw [if_pos h1] at hb
      rcases List.mem_append.mp hb with hmem | hmem
      · exact hflushmem hmem l hl
      · exact ih [] _ (by simp) hrest (by simp) b hmem l hl
    · rw [if_neg h1] at hb
      by_cases h2 : isAlertStartT (jsTrim line)
      · rw [if_pos h2] at hb
        rcases List.mem_append.mp hb with hmem | hmem
        · exact hflushmem hmem l hl
        · exact ih [line] true (by simpa using hline) hrest (by simp) b hmem l hl
      · rw [if_neg h2] at hb
        by_cases h3 : (jsTrim line).head? = some '>'
        · rw [if_pos h3] at hb
          refine ih (cur ++ [line]) true ?_ hrest
            (hcurline (boolNotTrue h2)) b hb l hl
          intro p hp
          rcases List.mem_append.mp hp with hmem | hmem
          · exact hcur p hmem
          · simp at hmem; subst hmem; exact hline
        · rw [if_neg h3] at hb
          by_cases h4 : inAlert
          · rw [if_pos h4] at hb
            refine ih (cur ++ [line]) inAlert ?_ hrest
              (hcurline (boolNotTrue h2)) b hb l hl
            intro p hp
            rcases List.mem_append.mp hp with hmem | hmem
            · exact hcur p hmem
            · simp at hmem; subst hmem; exact hline
          · rw [if_neg h4] at hb
            rcases List.mem_append.mp hb with hmem | hmem
            · exact hflushmem hmem l hl
            · rcases List.mem_cons.mp hmem with hmem2 | hmem2
              · rw [hmem2, splitNl_singleton line hline] at hl
                simp at hl
              · exact ih [] _ (by simp) hrest (by simp) b hmem2 l hl

/-- Blocks produced by `splitSlideContentIntoBlocks` have no alert-start
line after the first. -/
theorem splitBlocks_tail_no_alertStart (content : List Char) :
    ∀ b ∈ splitSlideContentIntoBlocks content,
      ∀ l ∈ (splitNl b).tail, isAlertStartT (jsTrim l) = false := by
  intro b hb l hl
  exact splitBlocksAux_tail_no_alertStart (splitCrNl content) [] false (by simp)
    (splitCrNl_no_newline content) (by simp) b hb l hl

/-- Inversion of the typed-alert path of `renderBlock`: a typed alert is
produced only when the block matches `alertBlockRegex`, its first line
matches the type pattern with a leading `>` count of exactly 1, the
lower-cased token answers `type in alertIcons`, and the inserted quotes are
those of the remaining lines at the uniform depth taken from the first
remaining line. -/
theorem renderBlock_typed_inversion (block type : List Char) (quotes : List String)
    (h : renderBlock block = some (.alertDivTyped type quotes)) :
    ∃ line0 token,
      (splitNl block).head? = some line0 ∧
      alertTypeMatchLine line0 = some token ∧
      type = token.map Char.toLower ∧
      leadingGt line0 = 1 ∧
      inAlertIcons type = true ∧
      quotes = (splitNl block).tail.map (fun msg =>
        createNestedBlockquote
          (Int.ofNat (match (splitNl block).tail.head? with
            | some h2 => if leadingGt h2 = 0 then 1 else leadingGt h2
            | none => 1))
          (String.mk (jsTrim (stripGtWs msg)))) := by
  unfold renderBlock at h
  by_cases hA : blockAlertMatch block
  · rw [if_pos hA] at h
    cases hh : (splitNl block).head? with
    | none => rw [hh] at h; simp at h
    | some line0 =>
      simp only [hh] at h
      cases htok : alertTypeMatchLine line0 with
      | none => rw [htok] at h; simp at h
      | some token =>
        simp only [htok] at h
        by_cases hcnt : leadingGt line0 = 0
        · rw [if_pos hcnt] at h; simp at h
        · rw [if_neg hcnt] at h
          by_cases hval :
              (inAlertIcons (token.map Char.toLower) &&
                decide (leadingGt line0 = 1)) = true
          · rw [if_pos hval, Option.some.injEq] at h
            simp only [Bool.and_eq_true, decide_eq_true_eq] at hval
            rw [BlockOut.alertDivTyped.injEq] at h
            refine ⟨line0, token, rfl, htok, h.1.symm, hval.2, ?_, ?_⟩
            · rw [← h.1]; exact hval.1
            · rw [← h.2]; rfl
          · rw [if_neg hval] at h
            simp at h
  · rw [if_neg hA] at h
    by_cases h2 : (blockAlertTypeMatch block || blockAlertMessageMatch block) = true
    · rw [if_pos h2] at h
      cases hrb : renderBlockquote (splitNl block) with
      | none => rw [hrb] at h; simp at h
      | some s => rw [hrb] at h; simp at h
    · rw [if_neg h2] at h
      simp at h

/-- C6 counterexample: in the typed block `> [!TIP]` / `> a` / `>> b`, the
line `>> b` has its own leading count 2, so the claim predicts the quote
`<blockquote><blockquote>b</blockquote></blockquote>`; the code emits it at
depth 1 instead (the depth of the first remaining line `> a`). -/
theorem C6_per_line_depth_counterexample :
    renderBlock ("> [!TIP]\n> a\n>> b").data =
      some (.alertDivTyped ("tip").data
        ["<blockquote>a</blockquote>", "<blockquote>b</blockquote>"]) ∧
    leadingGt ((">> b").data) = 2 ∧
    jsTrim (stripGtWs ((">> b").data)) = ("b").data ∧
    createNestedBlockquote (Int.ofNat (leadingGt ((">> b").data))) "b" =
      "<blockquote><blockquote>b</blockquote></blockquote>" ∧
    ("<blockquote>b</blockquote>" : String) ≠
      "<blockquote><blockquote>b</blockquote></blockquote>" := by
  decide

/-- C6 (amended): in the typed-alert path, every line after the marker line
is emitted as its own nested blockquote whose depth is, uniformly, the
leading-`>` count of the *first remaining* line (1 when that line has no
leading `>`), not each line's own count. -/
theorem C6_typed_alert_uniform_depth :
    ∀ (block type : List Char) (quotes : List String),
      renderBlock block = some (.alertDivTyped type quotes) →
      quotes = (splitNl block).tail.map (fun msg =>
        createNestedBlockquote
          (Int.ofNat (match (splitNl block).tail.head? with
            | some h2 => if leadingGt h2 = 0 then 1 else leadingGt h2
            | none => 1))
          (String.mk (jsTrim (stripGtWs msg)))) := by
  intro block type quotes h
  obtain ⟨line0, token, _, _, _, _, _, hq⟩ := renderBlock_typed_inversion block type quotes h
  exact hq

/-- Concrete instance of `C6_typed_alert_uniform_depth`. -/
theorem C6_typed_alert_uniform_depth_witness :
    ["<blockquote>a</blockquote>", "<blockquote>b</blockquote>"] =
      (splitNl ("> [!TIP]\n> a\n>> b").data).tail.map (fun msg =>
        createNestedBlockquote
          (Int.ofNat (match (splitNl ("> [!TIP]\n> a\n>> b").data).tail.head? with
            | some h2 => if leadingGt h2 = 0 then 1 else leadingGt h2
            | none => 1))
          (String.mk (jsTrim (stripGtWs msg)))) :=
  C6_typed_alert_uniform_depth ("> [!TIP]\n> a\n>> b").data ("tip").data
    ["<blockquote>a</blockquote>", "<blockquote>b</blockquote>"] (by decide)

/-- A line with two or more leading `>` markers is not `\r*>` followed by
whitespace only. -/
theorem lineGtWsOnly_false_of_two_gt (l : List Char) (h : 2 ≤ leadingGt l) :
    lineGtWsOnly l = false := by
  cases l with
  | nil => simp [leadingGt] at h
  | cons c cs =>
    by_cases hc : c = '>'
    · subst hc
      cases cs with
      | nil => simp [leadingGt, List.takeWhile] at h
      | cons d ds =>
        by_cases hd : d = '>'
        · subst hd
          unfold lineGtWsOnly
          rw [List.dropWhile_cons_of_neg (by decide)]
          show (('>' :: ds).all jsWhitespace) = false
          simp [List.all_cons]
          intro hws
          exact absurd hws (by decide)
        · exfalso
          have : leadingGt ('>' :: d :: ds) = 1 := by
            simp [leadingGt, List.takeWhile, hd]
          omega
    · exfalso
      have : leadingGt (c :: cs) = 0 := by
        simp [leadingGt, List.takeWhile, hc]
      omega

/-- When no line matches the first-line alert pattern and no line is a
bare `>`-plus-whitespace line, `alertBlockRegex` has no match. -/
theorem blockAlertMatchAux_false (ls : List (List Char))
    (h : ∀ l ∈ ls, lineAlertFirst l = false ∧ lineGtWsOnly l = false) :
    blockAlertMatchAux ls = false := by
  induction ls with
  | nil => rfl
  | cons l ls ih =>
    cases ls with
    | nil => rfl
    | cons l2 rest =>
      show (lineAlertFirst l || (lineGtWsOnly l && tagReachable (l2 :: rest)) ||
        blockAlertMatchAux (l2 :: rest)) = false
      rw [(h l (by simp)).1, (h l (by simp)).2]
      simp only [Bool.false_and, Bool.false_or]
      exact ih (fun x hx => h x (by simp [List.mem_cons] at hx ⊢; tauto))

/-- C5 (amended): a splitter-produced block whose first line carries two or
more leading `>` markers followed by a bracketed token, and whose remaining
lines are not bare `>`-plus-whitespace lines (from such a line the `\s*` of
`alertBlockRegex` crosses the newline), never takes the typed path: it
renders as an untyped `<div class="alert">` whose content is the block's
lines joined into one paragraph wrapped in exactly `leadingGt` nested
blockquotes.  Conversely a typed alert is produced only when the first
line's leading `>` count is exactly 1 and the lower-cased bracketed token
answers `type in alertIcons` — which holds for the five own keys *and* for
the property names inherited from `Object.prototype`, so the claim's "only
the five recognized types" fails (see the counterexample). -/
theorem C5_double_marker_degrades :
    (∀ (content block line0 : List Char) (rest : List (List Char)),
      block ∈ splitSlideContentIntoBlocks content →
      splitNl block = line0 :: rest →
      2 ≤ leadingGt line0 →
      (∀ l ∈ rest, lineGtWsOnly l = false) →
      (alertTypeMatchLine line0).isSome →
      renderBlock block = some (.quoteDiv (createNestedBlockquote
        (Int.ofNat (leadingGt line0))
        (pTagJoinBr ((line0 :: rest).map (fun m => String.mk (jsTrim (stripGtWs m)))))))) ∧
    (∀ (block type : List Char) (quotes : List String),
      renderBlock block = some (.alertDivTyped type quotes) →
      ∃ line0, (splitNl block).head? = some line0 ∧ leadingGt line0 = 1 ∧
        inAlertIcons type = true) := by
  constructor
  · intro content block line0 rest hmem hsplit hcnt hGtWs htok
    have hNoMatch : blockAlertMatch block = false := by
      unfold blockAlertMatch
      rw [hsplit]
      apply blockAlertMatchAux_false
      intro x hx
      rcases List.mem_cons.mp hx with hcase | hcase
      · subst hcase
        exact ⟨lineAlertFirst_false_of_two_gt x hcnt,
          lineGtWsOnly_false_of_two_gt x hcnt⟩
      · refine ⟨?_, hGtWs x hcase⟩
        have hinv := splitBlocks_tail_no_alertStart content block hmem x
          (by rw [hsplit]; exact hcase)
        cases hres : lineAlertFirst x with
        | false => rfl
        | true =>
          have := lineAlertFirst_imp_alertStart x hres
          rw [this] at hinv
          exact absurd hinv (by simp)
    have hTypeMatch : blockAlertTypeMatch block = true := by
      unfold blockAlertTypeMatch
      rw [hsplit]
      apply List.any_eq_true.mpr
      exact ⟨line0, List.mem_cons_self _ _, by simpa using htok⟩
    unfold renderBlock
    rw [hNoMatch]
    simp only [Bool.false_eq_true, if_false]
    rw [hTypeMatch]
    simp only [Bool.true_or, if_true]
    rw [hsplit, renderBlockquote_const line0 rest (by omega)]
    rfl
  · intro block type quotes h
    obtain ⟨line0, token, hh, _, _, hcnt, hcontains, _⟩ :=
      renderBlock_typed_inversion block type quotes h
    exact ⟨line0, hh, hcnt, hcontains⟩

/-- Concrete instance of `C5_double_marker_degrades`: the spec's example
block `>> [!CAUTION]` / `>> message` degrades to a double blockquote. -/
theorem C5_double_marker_degrades_witness :
    renderBlock (">> [!CAUTION]\n>> message").data =
      some (.quoteDiv (createNestedBlockquote
        (Int.ofNat (leadingGt ((">> [!CAUTION]").data)))
        (pTagJoinBr (((">> [!CAUTION]").data :: [(">> message").data]).map
          (fun m => String.mk (jsTrim (stripGtWs m))))))) :=
  C5_double_marker_degrades.1 (">> [!CAUTION]\n>> message").data
    (">> [!CAUTION]\n>> message").data (">> [!CAUTION]").data [(">> message").data]
    (by decide) (by decide) (by decide) (by decide) (by decide)

/-- C5 counterexample: the lower-cased token `constructor` is not one of the
five recognized alert types, but `'constructor' in alertIcons` is true (an
inherited `Object.prototype` property), so the block
`> [!constructor]` / `> x` takes the *typed* path — refuting "a typed alert
only for the five recognized types". -/
theorem C5_inherited_type_counterexample :
    renderBlock ("> [!constructor]\n> x").data =
      some (.alertDivTyped ("constructor").data ["<blockquote>x</blockquote>"]) ∧
    alertTypeNames.contains (("constructor").data) = false ∧
    inAlertIcons (("constructor").data) = true := by
  decide

/-! ### slidify and its helpers (plugin.js lines 175-313, 548-561) -/

/-- The `markdown` entry of the deck configuration
(`deck?.getConfig?.().markdown`); absent JS properties are `none`. -/
structure MarkdownConfig where
  separator : Option (List Char) := none
  verticalSeparator : Option (List Char) := none
  notesSeparator : Option (List Char) := none
  separateByHeading : Bool := false
deriving DecidableEq

/-- JS falsy-chain `a || b` on string-valued properties: an absent property
and the empty string are both falsy. -/
def jsStrOr (a b : Option (List Char)) : Option (List Char) :=
  match a with
  | some s => if s.isEmpty then b else some s
  | none => b

/-- Source constant `DEFAULT_SLIDE_SEPARATOR = '\r?\n---\r?\n'` (a regex source string). -/
def DEFAULT_SLIDE_SEPARATOR : List Char := ("\r?\n---\r?\n").data

/-- Source constant `DEFAULT_NOTES_SEPARATOR = '^s*notes?:'` (a regex source string). -/
def DEFAULT_NOTES_SEPARATOR : List Char := ("^s*notes?:").data

/-- Embedding of `getSlidifyOptions(options)`: fills out default values for
what is not defined, falling back to the deck's markdown config and then the
defaults (`DEFAULT_VERTICAL_SEPARATOR` is `null`, hence `none`). -/
def getSlidifyOptions (cfg : Option MarkdownConfig) (o : SlideOptions) :
    SlideOptions :=
  { o with
    separator := jsStrOr o.separator
      (jsStrOr (cfg.bind (·.separator)) (some DEFAULT_SLIDE_SEPARATOR))
    verticalSeparator := jsStrOr o.verticalSeparator
      (cfg.bind (·.verticalSeparator))
    notesSeparator := jsStrOr o.notesSeparator
      (jsStrOr (cfg.bind (·.notesSeparator)) (some DEFAULT_NOTES_SEPARATOR))
    separateByHeading := o.separateByHeading ||
      (cfg.map (·.separateByHeading)).getD false
    attributes := jsStrOr o.attributes (some []) }

/-- Collaborator type modelling the external `front-matter` dependency
(`fm`): given a document it returns the raw front-matter text (a
document-opening marker-pair block), or `none` when the document has no
front matter, together with the remaining body. -/
abbrev FrontMatterSplit := List Char → Option (List Char) × List Char

/-- Embedding of `parseFrontMatter(content, options)`: leading whitespace is
stripped (the guard `/^(\n|\s)/.test(content)` before
`content.replace(/^(\n|\s)+/, '')` only skips the no-op case), the front
matter is split off by the external dependency, and — when the
front-matter text is non-empty, i.e. truthy — its parse result is assigned
to `options.metadata`.  A parse exception propagates. -/
def parseFrontMatter (fmc : FrontMatterSplit) (yload : YamlLoad)
    (cfg : Option MarkdownConfig)
    (content : List Char) (options : SlideOptions) :
    Except (List Char) (List Char × SlideOptions) :=
  let options := getSlidifyOptions cfg options
  let content := content.dropWhile jsWhitespace
  let parsed := fmc content
  match parsed.1 with
  | some front =>
    if front.isEmpty then .ok (parsed.2, options)
    else
      match yload front with
      | .error e => .error e
      | .ok m => .ok (parsed.2, { options with metadata := m })
  | none => .ok (parsed.2, options)

/-- Embedding of `separateInlineMetadataAndMarkdown(markdown, options)`:
`yamlRegex.test` and `headingWithMetadataRegex.test` decide which extractor
runs; with neither and `options.metadata` truthy, only the class attribute
is recomputed (the `switch (true)` ranks the heading pattern first).  An
exception from the inline extractor propagates. -/
def separateInlineMetadataAndMarkdown (yload : YamlLoad)
    (markdown : List Char) (options : SlideOptions) :
    Except (List Char) (List Char × SlideOptions) :=
  let newMetadata := (findMetaHeadingLine markdown).isSome
  let yamlMetadata := (yamlFenceExec markdown).isSome
  if options.separateByHeading then extractInlineMetadata markdown options
  else if newMetadata then extractInlineMetadata markdown options
  else if yamlMetadata then .ok (extractYAMLMetadata yload markdown options)
  else
    match options.metadata with
    | some m => .ok (markdown, { options with attributes := some (classAttr m) })
    | none => .ok (markdown, options)

/-- Fueled global replacement of a non-empty literal substring, as in
`content.replace(/<\/script>/g, SCRIPT_END_PLACEHOLDER)` (the fuel, initially
the input length, always suffices because every step consumes at least one
character). -/
def replaceSubAll (pat repl : List Char) : Nat → List Char → List Char
  | _, [] => []
  | 0, l => l
  | fuel + 1, c :: rest =>
    if pat.isPrefixOf (c :: rest) then
      repl ++ replaceSubAll pat repl fuel ((c :: rest).drop pat.length)
    else c :: replaceSubAll pat repl fuel rest

/-- Embedding of `content.replace(/<\/script>/g, SCRIPT_END_PLACEHOLDER)` with
`SCRIPT_END_PLACEHOLDER = '__SCRIPT_END__'`. -/
def replaceScriptEnd (content : List Char) : List Char :=
  replaceSubAll ("</script>").data ("__SCRIPT_END__").data content.length content

/-- The dynamically built matching machinery of `slidify` and
`createMarkdownSlide`, abstracted as a parameter: `sepMatches md` lists the
`(index, length)` pairs of the successive matches of `separatorRegex` (built
from `options.separator` and `options.verticalSeparator`; global flag, so
in order and non-overlapping with strictly advancing `lastIndex`),
`isHoriz s` is `horizontalSeparatorRegex.test(s)` on a matched text, and
`notesSplit c` is `c.split(new RegExp(options.notesSeparator, 'mgi'))`. -/
structure Patterns where
  sepMatches : List Char → List (Nat × Nat)
  isHoriz : List Char → Bool
  notesSplit : List Char → List (List Char)

/-- The external collaborators of the slide pipeline: `fm` is the
`front-matter` splitter; `yload` is `yaml.load` of `js-yaml`; `marked` is
the external markdown renderer; `renderTemplate` is the plugin's template
renderer, abstracted because it works through `XMLHttpRequest`, the DOM and
Mustache (modelled total: no template exception). -/
structure Collab where
  fm : FrontMatterSplit
  yload : YamlLoad
  marked : List Char → List Char
  renderTemplate : List Char → SlideOptions → List Char

/-- Embedding of `createMarkdownSlide(content, options)`. -/
def createMarkdownSlide (collab : Collab) (pat : Patterns)
    (cfg : Option MarkdownConfig) (content0 : List Char)
    (options0 : SlideOptions) : List Char :=
  let options := getSlidifyOptions cfg options0
  let notesMatch := pat.notesSplit content0
  let content :=
    if notesMatch.length = 2 then
      notesMatch.headD [] ++ ("<aside class=\"notes\">").data ++
        collab.marked (jsTrim (notesMatch.getD 1 [])) ++ ("</aside>").data
    else content0
  let content := replaceScriptEnd content
  let content :=
    if options.metadata.isSome then collab.renderTemplate content options
    else content
  ("<script type=\"text/template\">").data ++ content ++ ("</script>").data

/-- One entry of `sectionStack`: a plain string (horizontal slide) or an
array of strings (vertical stack). -/
inductive SEntry where
  | leaf (content : List Char)
  | group (children : List (List Char))
deriving DecidableEq

/-- Embedding of `sectionStack[sectionStack.length - 1].push(content)`.  The empty-stack
and leaf-last cases would throw a `TypeError` in JS; they are unreachable in
`buildStack` (a group is always pushed first) and modelled as no-ops. -/
def pushIntoLast : List SEntry → List Char → List SEntry
  | [], _ => []
  | [SEntry.group g], c => [SEntry.group (g ++ [c])]
  | [SEntry.leaf s], _ => [SEntry.leaf s]
  | e :: e2 :: rest, c => e :: pushIntoLast (e2 :: rest) c

/-- One iteration of the `while ((matches = separatorRegex.exec(markdown)))`
loop, on state (stack, lastIndex, wasHorizontal). -/
def slidifyStep (pat : Patterns) (markdown : List Char)
    (st : List SEntry × Nat × Bool) (m : Nat × Nat) :
    List SEntry × Nat × Bool :=
  let isH := pat.isHoriz ((markdown.drop m.1).take m.2)
  let stack := if !isH && st.2.2 then st.1 ++ [SEntry.group []] else st.1
  let content := (markdown.drop st.2.1).take (m.1 - st.2.1)
  let stack :=
    if isH && st.2.2 then stack ++ [SEntry.leaf content]
    else pushIntoLast stack content
  (stack, m.1 + m.2, isH)

/-- The separator loop of `slidify` plus the push of the remaining slide:
the hierarchical `sectionStack`. -/
def buildStack (pat : Patterns) (markdown : List Char) : List SEntry :=
  let st := (pat.sepMatches markdown).foldl (slidifyStep pat markdown)
    ([], 0, true)
  let remainder := markdown.drop st.2.1
  if st.2.2 then st.1 ++ [SEntry.leaf remainder]
  else pushIntoLast st.1 remainder

/-- One `<section ... data-markdown>` emission: metadata separation followed
by `createMarkdownSlide`, returning the section text and the updated
slide options; an extraction exception propagates. -/
def renderSlide (collab : Collab) (pat : Patterns)
    (cfg : Option MarkdownConfig) (child : List Char)
    (slideOptions : SlideOptions) :
    Except (List Char) (List Char × SlideOptions) :=
  match separateInlineMetadataAndMarkdown collab.yload child slideOptions with
  | .error e => .error e
  | .ok r =>
    .ok (("<section ").data ++ (r.2.attributes.getD []) ++
      (" data-markdown>").data ++
      createMarkdownSlide collab pat cfg r.1 r.2 ++ ("</section>").data,
     r.2)

/-- The `forEach` over the children of a vertical stack, threading one
`slideOptions` object and appending each child section to the accumulator. -/
def renderGroupLoop (collab : Collab) (pat : Patterns)
    (cfg : Option MarkdownConfig) :
    List (List Char) → List Char → SlideOptions →
    Except (List Char) (List Char)
  | [], acc, _ => .ok acc
  | child :: rest, acc, so =>
    match renderSlide collab pat cfg child so with
    | .error e => .error e
    | .ok s => renderGroupLoop collab pat cfg rest (acc ++ s.1) s.2

/-- The body of the flattening loop of `slidify` for one stack entry, with
`options` the per-entry fresh copy `{ ...options }`: a vertical stack is
wrapped in an outer section and its children *thread* `slideOptions` through
the `forEach`. -/
def renderEntry (collab : Collab) (pat : Patterns)
    (cfg : Option MarkdownConfig) (options : SlideOptions) :
    SEntry → Except (List Char) (List Char)
  | .leaf content =>
    match renderSlide collab pat cfg content options with
    | .error e => .error e
    | .ok s => .ok s.1
  | .group children =>
    match renderGroupLoop collab pat cfg children
        (("<section ").data ++ (options.attributes.getD []) ++ (">").data)
        options with
    | .error e => .error e
    | .ok acc => .ok (acc ++ ("</section>").data)

/-- The `for (let i = 0; ...)` flattening loop of `slidify` accumulating
`markdownSections`: every entry is rendered from the same parsed options
(`renderEntry` receives the fresh per-entry copy), and an exception from
any entry aborts the whole loop. -/
def renderStackLoop (collab : Collab) (pat : Patterns)
    (cfg : Option MarkdownConfig) (options : SlideOptions) :
    List SEntry → List Char → Except (List Char) (List Char)
  | [], acc => .ok acc
  | e :: rest, acc =>
    match renderEntry collab pat cfg options e with
    | .error err => .error err
    | .ok s => renderStackLoop collab pat cfg options rest (acc ++ s)

/-- The flattening loop of `slidify` started on the empty accumulator. -/
def renderStack (collab : Collab) (pat : Patterns)
    (cfg : Option MarkdownConfig) (options : SlideOptions)
    (stack : List SEntry) : Except (List Char) (List Char) :=
  renderStackLoop collab pat cfg options stack []

/-- The fixed diagnostic section returned on the
`separateByHeading`/`hasDataSeparator` configuration conflict. -/
def diagSection (options : SlideOptions) : List Char :=
  ("<section ").data ++ (options.attributes.getD []) ++ (" data-markdown>").data ++
    ("Please do not specify \"data-markdown\" when \"data-separator-by-heading\" is used.").data ++
    ("</section>").data

/-- The tail of `slidify` after the heading-separation preamble: front
matter, stack construction, flattening. -/
def slidifyBody (collab : Collab) (pat : Patterns)
    (cfg : Option MarkdownConfig) (markdown : List Char)
    (options : SlideOptions) : Except (List Char) (List Char) :=
  match parseFrontMatter collab.fm collab.yload cfg markdown options with
  | .error e => .error e
  | .ok r => renderStack collab pat cfg r.2 (buildStack pat r.1)

/-- Embedding of `slidify(markdown, options)`; `.error` models a thrown
front-matter parse exception. -/
def slidify (collab : Collab) (pat : Patterns) (cfg : Option MarkdownConfig)
    (markdown : List Char) (options : SlideOptions) :
    Except (List Char) (List Char) :=
  let options := getSlidifyOptions cfg options
  if options.separateByHeading then
    if options.hasDataSeparator then .ok (diagSection options)
    else
      slidifyBody collab pat cfg (addSlideSeparator markdown (("---").data))
        { options with slideSeparator := some (("---").data) }
  else slidifyBody collab pat cfg markdown options

/-- Trivial concrete collaborators for closed instances: the loader parses
nothing to a structured result, front matter is never found, and the
rendering stubs are identities. -/
def trivCollab : Collab :=
  { fm := fun c => (none, c), yload := fun _ => .ok none,
    marked := id, renderTemplate := fun c _ => c }

/-- Trivial concrete patterns for closed instances: no separator matches,
every match horizontal, notes split without a match (one-element array). -/
def trivPat : Patterns :=
  { sepMatches := fun _ => [], isHoriz := fun _ => true,
    notesSplit := fun c => [c] }

/-- Resolving options does not touch the `metadata` property. -/
theorem gso_metadata (cfg : Option MarkdownConfig) (o : SlideOptions) :
    (getSlidifyOptions cfg o).metadata = o.metadata := rfl

/-- Resolving options does not touch the `hasDataSeparator` property. -/
theorem gso_hasDataSeparator (cfg : Option MarkdownConfig) (o : SlideOptions) :
    (getSlidifyOptions cfg o).hasDataSeparator = o.hasDataSeparator := rfl

/-- Resolving the `attributes` property is idempotent. -/
theorem gso_attributes_idem (cfg : Option MarkdownConfig) (o : SlideOptions) :
    (getSlidifyOptions cfg (getSlidifyOptions cfg o)).attributes =
      (getSlidifyOptions cfg o).attributes := by
  unfold getSlidifyOptions jsStrOr
  cases o.attributes with
  | none => simp
  | some s =>
    by_cases h : s.isEmpty
    · simp [h]
    · simp [h]

/-- Resolving the `separateByHeading` property is idempotent. -/
theorem gso_separateByHeading_idem (cfg : Option MarkdownConfig) (o : SlideOptions) :
    (getSlidifyOptions cfg (getSlidifyOptions cfg o)).separateByHeading =
      (getSlidifyOptions cfg o).separateByHeading := by
  unfold getSlidifyOptions
  simp [Bool.or_assoc]

/-- C2: whenever the resolved options carry both `separateByHeading` and
`hasDataSeparator`, `slidify` returns the single fixed diagnostic section —
for every collaborator stack, every separator machinery and every input, so
no segmentation, separator synthesis or metadata extraction takes place and
no exception escapes. -/
theorem C2_conflict_diagnostic
    (collab : Collab) (pat : Patterns) (cfg : Option MarkdownConfig)
    (markdown : List Char) (options : SlideOptions)
    (h1 : (getSlidifyOptions cfg options).separateByHeading = true)
    (h2 : options.hasDataSeparator = true) :
    slidify collab pat cfg markdown options =
      .ok (("<section ").data ++
        ((getSlidifyOptions cfg options).attributes.getD []) ++
        (" data-markdown>").data ++
        ("Please do not specify \"data-markdown\" when \"data-separator-by-heading\" is used.").data ++
        ("</section>").data) := by
  unfold slidify
  simp only [h1, if_true]
  rw [gso_hasDataSeparator cfg options, h2]
  rfl

/-- Concrete instance of `C2_conflict_diagnostic`, reproducing the expected
`'<section  data-markdown>...'` section (empty attributes, double space). -/
theorem C2_conflict_diagnostic_witness :
    slidify trivCollab trivPat none ("x").data
      { separateByHeading := true, hasDataSeparator := true } =
      .ok (("<section ").data ++
        ((getSlidifyOptions none
          ({ separateByHeading := true, hasDataSeparator := true } :
            SlideOptions)).attributes.getD []) ++
        (" data-markdown>").data ++
        ("Please do not specify \"data-markdown\" when \"data-separator-by-heading\" is used.").data ++
        ("</section>").data) :=
  C2_conflict_diagnostic trivCollab trivPat none (("x").data)
    { separateByHeading := true, hasDataSeparator := true }
    (by decide) (by decide)

/-- With no separator match, the section stack is a single leaf holding the
whole post-front-matter text. -/
theorem buildStack_nil (pat : Patterns) (markdown : List Char)
    (h : pat.sepMatches markdown = []) :
    buildStack pat markdown = [SEntry.leaf markdown] := by
  unfold buildStack
  rw [h]
  simp

/-- The default branch of `separateInlineMetadataAndMarkdown`: with neither
extraction pattern matching, no heading separation and no metadata, both the
content and the options pass through unchanged. -/
theorem separateInline_default (yload : YamlLoad) (markdown : List Char)
    (options : SlideOptions)
    (h1 : options.separateByHeading = false)
    (h2 : options.metadata = none)
    (h3 : findMetaHeadingLine markdown = none)
    (h4 : yamlFenceExec markdown = none) :
    separateInlineMetadataAndMarkdown yload markdown options =
      .ok (markdown, options) := by
  unfold separateInlineMetadataAndMarkdown
  simp [h1, h2, h3, h4]

/-- Plain path of `createMarkdownSlide`: without a notes split, a script
end tag or metadata, the content is only wrapped in the script tag. -/
theorem createMarkdownSlide_plain (collab : Collab) (pat : Patterns)
    (cfg : Option MarkdownConfig) (content : List Char)
    (options : SlideOptions)
    (h1 : (pat.notesSplit content).length ≠ 2)
    (h2 : replaceScriptEnd content = content)
    (h3 : options.metadata = none) :
    createMarkdownSlide collab pat cfg content options =
      ("<script type=\"text/template\">").data ++ content ++
        ("</script>").data := by
  unfold createMarkdownSlide
  have hm : (getSlidifyOptions cfg options).metadata = none := h3
  simp [h1, h2, hm]

/-- C1 (amended): when the resolved options request no heading separation
and carry no metadata, the front-matter dependency reports no front matter
(returning the stripped input as body), and the post-whitespace-stripped
input has no separator-pattern match, no fenced yaml block, no
heading-with-inline-tags match, no notes split and no `</script>`
occurrence, `slidify` emits exactly one slide section whose content is the
stripped input unchanged inside the wrapping artifacts.  Without the extra
hypotheses the unchanged-content part of the claim fails: the yaml-fence,
inline-tag, notes and script-placeholder paths rewrite the content even
though no separator matched (see the counterexample). -/
theorem C1_no_separator_single_section
    (collab : Collab) (pat : Patterns) (cfg : Option MarkdownConfig)
    (markdown : List Char) (options : SlideOptions)
    (h1 : (getSlidifyOptions cfg options).separateByHeading = false)
    (h2 : options.metadata = none)
    (hfm : collab.fm (markdown.dropWhile jsWhitespace) =
      (none, markdown.dropWhile jsWhitespace))
    (hsep : pat.sepMatches (markdown.dropWhile jsWhitespace) = [])
    (hyaml : yamlFenceExec (markdown.dropWhile jsWhitespace) = none)
    (hhead : findMetaHeadingLine (markdown.dropWhile jsWhitespace) = none)
    (hnotes : (pat.notesSplit (markdown.dropWhile jsWhitespace)).length ≠ 2)
    (hscript : replaceScriptEnd (markdown.dropWhile jsWhitespace) =
      markdown.dropWhile jsWhitespace) :
    slidify collab pat cfg markdown options =
      .ok (("<section ").data ++
        ((getSlidifyOptions cfg options).attributes.getD []) ++
        (" data-markdown><script type=\"text/template\">").data ++
        markdown.dropWhile jsWhitespace ++
        ("</script></section>").data) := by
  have h1' : (getSlidifyOptions cfg (getSlidifyOptions cfg options)).separateByHeading = false := by
    rw [gso_separateByHeading_idem]; exact h1
  have h2' : (getSlidifyOptions cfg (getSlidifyOptions cfg options)).metadata = none := by
    rw [gso_metadata, gso_metadata]; exact h2
  unfold slidify
  simp only [h1, Bool.false_eq_true, if_false]
  unfold slidifyBody parseFrontMatter
  simp only [hfm]
  rw [buildStack_nil pat _ hsep]
  unfold renderStack renderStackLoop renderEntry
  unfold renderSlide
  simp only []
  rw [separateInline_default collab.yload _ _ h1' h2' hhead hyaml]
  simp only []
  rw [createMarkdownSlide_plain collab pat cfg _ _ hnotes hscript h2']
  rw [gso_attributes_idem]
  simp [renderStackLoop, List.append_assoc]

/-- C1 counterexample: for the input `` ```yaml\n# c\n```\nhi `` no separator
matches and there is no front matter, yet the single emitted section does
not contain the input text: the fenced-yaml path replaces the whole content
by the invalid-metadata message (the loader yields no structured result for
a comment-only document). -/
theorem C1_content_changed_counterexample :
    slidify trivCollab trivPat none ("```yaml\n# c\n```\nhi").data {} =
      .ok (("<section  data-markdown><script type=\"text/template\">The inline metadata is not valid.</script></section>").data) ∧
    trivPat.sepMatches ((("```yaml\n# c\n```\nhi").data).dropWhile jsWhitespace) = [] ∧
    (trivCollab.fm (("```yaml\n# c\n```\nhi").data)).1 = none ∧
    findSubIdx ("hi").data (("<section  data-markdown><script type=\"text/template\">The inline metadata is not valid.</script></section>").data) = none := by
  decide

/-- Concrete instance of `C1_no_separator_single_section` on a plain
two-line document. -/
theorem C1_no_separator_single_section_witness :
    slidify trivCollab trivPat none ("hello\nworld").data {} =
      .ok (("<section ").data ++
        ((getSlidifyOptions none ({} : SlideOptions)).attributes.getD []) ++
        (" data-markdown><script type=\"text/template\">").data ++
        (("hello\nworld").data).dropWhile jsWhitespace ++
        ("</script></section>").data) :=
  C1_no_separator_single_section trivCollab trivPat none
    (("hello\nworld").data) {} (by decide) (by decide) (by decide)
    (by decide) (by decide) (by decide) (by decide) (by decide)

/-- Input for the vertical-stack leak: two heading slides split by a
vertical separator, the first carrying an inline `::slide:cover` tag and the
second carrying nothing. -/
def leakInput : List Char := ("# A ::slide:cover\n--\n# B").data

/-- Concrete separator machinery for `leakInput`: one vertical match on the
`\n--\n` between the two headings. -/
def leakPat : Patterns :=
  { sepMatches := fun s => if s = leakInput then [(17, 4)] else [],
    isHoriz := fun _ => false,
    notesSplit := fun c => [c] }

/-- C8 counterexample: in the vertical stack built from `leakInput`, the
sibling slide `# B` carries no inline tag and the document has no front
matter (so no document-level metadata), yet its emitted section reads
`class=cover` — the `slide` key merged while processing the first child
leaks into the sibling, because the `forEach` over a vertical stack threads
one `slideOptions` object through all children. -/
theorem C8_vertical_leak_counterexample :
    slidify trivCollab leakPat none leakInput {} =
      .ok (("<section ><section class=cover data-markdown><script type=\"text/template\"># A </script></section><section class=cover data-markdown><script type=\"text/template\"># B</script></section></section>").data) ∧
    findSubIdx ("<section class=cover data-markdown><script type=\"text/template\"># B</script></section>").data
      (("<section ><section class=cover data-markdown><script type=\"text/template\"># A </script></section><section class=cover data-markdown><script type=\"text/template\"># B</script></section></section>").data) ≠ none ∧
    findMetaHeadingLine ("# B").data = none ∧
    yamlFenceExec ("# B").data = none ∧
    (trivCollab.fm leakInput).1 = none := by
  decide

/-- Splitting the section loop at an append: the left part runs first and
the right part continues from its accumulator. -/
theorem renderStackLoop_append (collab : Collab) (pat : Patterns)
    (cfg : Option MarkdownConfig) (options : SlideOptions)
    (s t : List SEntry) (acc : List Char) :
    renderStackLoop collab pat cfg options (s ++ t) acc =
      (renderStackLoop collab pat cfg options s acc).bind
        (fun a => renderStackLoop collab pat cfg options t a) := by
  induction s generalizing acc with
  | nil => rfl
  | cons e es ih =>
    rw [List.cons_append]
    simp only [renderStackLoop]
    cases he : renderEntry collab pat cfg options e with
    | error err => rfl
    | ok s1 => exact ih (acc ++ s1)

/-- The loop accumulator factors out in front of the result. -/
theorem renderStackLoop_acc (collab : Collab) (pat : Patterns)
    (cfg : Option MarkdownConfig) (options : SlideOptions)
    (t : List SEntry) (acc : List Char) :
    renderStackLoop collab pat cfg options t acc =
      (renderStackLoop collab pat cfg options t []).map
        (fun b => acc ++ b) := by
  induction t generalizing acc with
  | nil => simp [renderStackLoop, Except.map]
  | cons e es ih =>
    simp only [renderStackLoop]
    cases he : renderEntry collab pat cfg options e with
    | error err => rfl
    | ok s1 =>
      show renderStackLoop collab pat cfg options es (acc ++ s1) =
        Except.map (fun b => acc ++ b)
          (renderStackLoop collab pat cfg options es ([] ++ s1))
      rw [List.nil_append, ih (acc ++ s1), ih s1]
      cases hr : renderStackLoop collab pat cfg options es [] with
      | error err => rfl
      | ok b => simp [Except.map, List.append_assoc]

/-- C8 (amended): the fresh shallow copy of the parsed options is made per
*top-level* stack entry, not per emitted slide.  Rendering is therefore a
homomorphism over the top-level stack — metadata merged inside one
top-level entry never reaches another (and an exception from either part
propagates in order) — while inside a vertical stack the one options object
is threaded through the children, so keys merged for one child do appear in
its later siblings (see the counterexample). -/
theorem C8_top_level_isolation
    (collab : Collab) (pat : Patterns) (cfg : Option MarkdownConfig)
    (options : SlideOptions) (s t : List SEntry) :
    renderStack collab pat cfg options (s ++ t) =
      (renderStack collab pat cfg options s).bind (fun a =>
        (renderStack collab pat cfg options t).map (fun b => a ++ b)) := by
  unfold renderStack
  rw [renderStackLoop_append]
  cases hs : renderStackLoop collab pat cfg options s [] with
  | error e => rfl
  | ok as =>
    show renderStackLoop collab pat cfg options t as = _
    rw [renderStackLoop_acc collab pat cfg options t as]
    rfl

end AwesoMD
